import Mathlib

/-!
Shallow embedding of the diskAnn Vamana index (package `diskAnn`,
`src/unnamed/part_001`) together with the L2-squared distance kernel
(`adapters/repos/db/vector/hnsw/distancer/l2.go`).

Scalars: the Go code computes with `float32`.  We embed the numeric type as a
parameter `α` carrying the operations the code uses (a linear order with
`+ - * /` and `0`); witnesses instantiate `α := ℤ`.  Machine `uint64` node ids
become `Nat`.  Go slices become `List`s; out-of-range reads that Go guards by
construction are embedded with `List.getD`.  Go `panic` paths (failing vector
fetches, out-of-range index writes in `medoid`) are embedded as `Option.none`.
Randomness (`rand.Uint64()`, `rand.Intn`) is passed in as explicit streams.
Unbounded `for` loops are embedded with an explicit fuel argument; every claim
below is proved for every fuel value.

Components whose source is absent from `src/` (the `ssdhelpers` candidate set,
`Set2`, `FullBitSet`, the product quantizer and the binary graph file) are
modelled from the spec; each such definition is marked `Modelled from the
spec:` in its doc comment.
-/

namespace DiskAnn

/-- Node identifier: Go `uint64` ids in `[0, N)`, embedded as `Nat`. -/
abbrev Id := Nat

/-- A vector: ordered sequence of scalars (`[]float32` in the source). -/
abbrev Vec (α : Type) := List α

/-- The vector-by-id fetch callback `ssdhelpers.VectorForID`.  A `none` result
embeds a failing fetch (which the Go code turns into a panic). -/
abbrev VectorForID (α : Type) := Id → Option (Vec α)

/-- `ssdhelpers.DistanceFunction`: pure function over pairs of vectors. -/
abbrev DistanceFunction (α : Type) := Vec α → Vec α → α

/-- Embedding of `l2SquaredImpl` from `distancer/l2.go`: iterates the first
argument, reading the matching prefix of the second (`zipWith` truncates
exactly as the Go loop `for i := range a` does when `len a ≤ len b`; for
`len a > len b` the Go code would panic, a case none of the verified call
sites reach). -/
def l2Squared [Sub α] [Mul α] [Add α] [Zero α] (a b : Vec α) : α :=
  (List.zipWith (fun x y => (x - y) * (x - y)) a b).sum

/-- The `diskAnn.Config` structure (numeric fields; the two function-valued
fields `VectorForIDThunk` and `Distance` are passed to each operation
explicitly). -/
structure Config (α : Type) where
  R : Nat
  L : Nat
  Alpha : α
  VectorsSize : Nat
  Dimensions : Nat
  C : Nat
  BeamSize : Nat
  ClustersSize : Nat
  ClusterOverlapping : Nat
deriving DecidableEq, Repr

/-- `ssdhelpers.VectorWithNeighbors`: a hot-cache entry. -/
structure VectorWithNeighbors (α : Type) where
  Vector : Vec α
  OutNeighbors : List Id
deriving DecidableEq, Repr

/-- `diskAnn.VamanaData`: the persisted index payload.  The Go
`map[uint64]*VectorWithNeighbors` becomes an association list. -/
structure VamanaData (α : Type) where
  SIndex : Id
  GraphID : String
  CachedEdges : List (Id × VectorWithNeighbors α)
  EncondedVectors : List (List Nat)
  OnDisk : Bool
deriving DecidableEq, Repr

/-- The three values the function-valued field `beamSearchHolder` takes in the
source: `secuentialBeamSearch`, `initBeamSearch` and `beamSearch`. -/
inductive BeamStrategy where
  | secuential : BeamStrategy
  | initialStep : BeamStrategy
  | beam : BeamStrategy
deriving DecidableEq, Repr

/-- The `diskAnn.Vamana` index value.  The function-valued dispatch fields
`outNeighbors` (memory / disk) and `addRange` (vectors / PQ) are embedded as
booleans selecting the disk variant; `beamSearchHolder` as a `BeamStrategy`.
`graphFile` is the parsed content of the external fixed-width graph file
(one `(neighbors, vector)` row per node); `pq` is the product quantizer,
kept abstract as its asymmetric-distance function (the PQ routines are
external collaborators consumed through a narrow interface). -/
structure Vamana (α : Type) where
  config : Config α
  data : VamanaData α
  cachedBitMap : List Bool
  edges : List (List Id)
  graphFile : List (List Id × Vec α)
  pq : Vec α → List Nat → α
  outNeighborsDisk : Bool
  addRangePQFlag : Bool
  beamSearchHolder : BeamStrategy

/-- `Vamana.SetCacheSize`: sets `config.C`. -/
def SetCacheSize (v : Vamana α) (size : Nat) : Vamana α :=
  { v with config := { v.config with C := size } }

/-- `Vamana.SetBeamSize`: sets `config.BeamSize`. -/
def SetBeamSize (v : Vamana α) (size : Nat) : Vamana α :=
  { v with config := { v.config with BeamSize := size } }

/-- `diskAnn.IndexAndDistance`: an element of `Set2`, an id together with its
lazily cached distance to the pruned point (`0` means not yet computed). -/
structure IndexAndDistance (α : Type) where
  index : Id
  distance : α
deriving DecidableEq, Repr

/-- Modelled from the spec: `Set2.AddRange` inserts ids not already present,
in order, with distance cache `0` (`W = V ∪ neighbors(p)` is a set). -/
def set2AddRange [Zero α] (items : List (IndexAndDistance α)) (ids : List Id) :
    List (IndexAndDistance α) :=
  ids.foldl
    (fun acc i => if acc.any (fun e => e.index == i) then acc else acc ++ [⟨i, 0⟩]) items

/-- Modelled from the spec: `Set2.Remove` removes the element with the given
id. -/
def set2Remove (items : List (IndexAndDistance α)) (i : Id) :
    List (IndexAndDistance α) :=
  items.filter (fun e => e.index ≠ i)

/-- The distance-caching scan inside `Vamana.closest` (lines 610–619): every
element whose cached distance is the sentinel `0` gets its distance to `x`
computed and stored (`element.distance = distance` through the pointer). -/
def closestScan [Zero α] [DecidableEq α] (thunk : VectorForID α)
    (dist : DistanceFunction α) (x : Vec α) :
    List (IndexAndDistance α) → Option (List (IndexAndDistance α))
  | [] => some []
  | e :: rest =>
    match closestScan thunk dist x rest with
    | none => none
    | some rest1 =>
      if e.distance = 0 then
        match thunk e.index with
        | none => none
        | some qi => some (⟨e.index, dist qi x⟩ :: rest1)
      else some (e :: rest1)

/-- The running-minimum fold inside `Vamana.closest` (lines 620–623):
`min` starts at `math.MaxFloat32` (embedded as `none`), and a strictly
smaller distance replaces the current minimum, so the first minimum wins. -/
def minItemAux [LinearOrder α] (acc : Option (IndexAndDistance α)) :
    List (IndexAndDistance α) → Option (IndexAndDistance α)
  | [] => acc
  | e :: rest =>
    match acc with
    | none => minItemAux (some e) rest
    | some m => if m.distance > e.distance then minItemAux (some e) rest else minItemAux acc rest

/-- `Vamana.closest` restricted to the selection of the minimum element (the
caching side effect is `closestScan`). -/
def minItem [LinearOrder α] (items : List (IndexAndDistance α)) :
    Option (IndexAndDistance α) :=
  minItemAux none items

/-- The removal loop of `Vamana.robustPrune` (lines 594–602): every remaining
candidate `x` with `alpha · d(vec p*, vec x) ≤ x.distance` is removed from the
working set (`Set2.Remove` inside a scan of `items`, embedded as a filter). -/
def removeDominated [LinearOrder α] [Mul α] (thunk : VectorForID α)
    (dist : DistanceFunction α) (alpha : α) (qPMin : Vec α) :
    List (IndexAndDistance α) → Option (List (IndexAndDistance α))
  | [] => some []
  | x :: rest =>
    match thunk x.index with
    | none => none
    | some qX =>
      match removeDominated thunk dist alpha qPMin rest with
      | none => none
      | some rest1 =>
        if alpha * dist qPMin qX ≤ x.distance then some rest1 else some (x :: rest1)

/-- The main loop of `Vamana.robustPrune` (lines 583–603).  `out` is the
`FullBitSet` of selected neighbors in insertion order (`out.Add` is a no-op
on an already present id); the loop breaks as soon as `out` holds `R`
elements.  The fuel is the initial working-set size: each full iteration
removes at least the selected `p*` (whose fresh distance to itself is `0`),
so with the L2 kernel the fuel never runs out. -/
def robustPruneLoop [LinearOrder α] [Mul α] [Zero α] (thunk : VectorForID α)
    (dist : DistanceFunction α) (alpha : α) (R : Nat) (qP : Vec α) :
    Nat → List (IndexAndDistance α) → List Id → Option (List Id)
  | 0, _, out => some out
  | fuel + 1, items, out =>
    if items.isEmpty then some out
    else
      match closestScan thunk dist qP items with
      | none => none
      | some items1 =>
        match minItem items1 with
        | none => none
        | some pMin =>
          let out1 := if out.contains pMin.index then out else out ++ [pMin.index]
          match thunk pMin.index with
          | none => none
          | some qPMin =>
            if out1.length = R then some out1
            else
              match removeDominated thunk dist alpha qPMin items1 with
              | none => none
              | some items2 => robustPruneLoop thunk dist alpha R qP fuel items2 out1

/-- The working set `W` of `Vamana.robustPrune` (lines 576–577):
`visitedSet.AddRange(visited).AddRange(v.edges[p]).Remove(p)`. -/
def pruneWorkSet [Zero α] (v : Vamana α) (visited : List Id) (p : Id) :
    List (IndexAndDistance α) :=
  set2Remove (set2AddRange (set2AddRange [] visited) (v.edges.getD p [])) p

/-- `Vamana.robustPrune` (lines 575–605): build the working set
`W = visited ∪ neighbors(p) \ {p}`, run the selection loop, and assign the
selected neighbors (in insertion order) to `edges[p]`. -/
def robustPrune [LinearOrder α] [Mul α] [Zero α] (v : Vamana α)
    (thunk : VectorForID α) (dist : DistanceFunction α) (p : Id)
    (visited : List Id) : Option (Vamana α) :=
  let items : List (IndexAndDistance α) := pruneWorkSet v visited p
  match thunk p with
  | none => none
  | some qP =>
    match robustPruneLoop thunk dist v.config.Alpha v.config.R qP items.length items [] with
    | none => none
    | some out => some { v with edges := v.edges.set p out }

/-- `diskAnn.permutation` (lines 410–423): start from the identity permutation
of `[0, n)` and perform `2n` random transpositions.  `rnd k` embeds the `k`-th
call to `rand.Intn(n)` (already reduced modulo `n` by `% n`). -/
def permutation (n : Nat) (rnd : Nat → Nat) : List Nat :=
  (List.range (2 * n)).foldl
    (fun perm i =>
      let x := rnd (2 * i) % n
      let y := rnd (2 * i + 1) % n
      let z := perm.getD x 0
      (perm.set x (perm.getD y 0)).set y z)
    (List.range n)

/-- `Vamana.makeRandomGraph` (lines 361–373): for each id `i`, `R` draws
`rand.Uint64() % (N-1)`, incremented when `≥ i` to avoid a self-loop.
`rnd i j` embeds the random draw for entry `j` of row `i` (the source runs
the rows concurrently, so the draws carry no ordering).  Note the Go code
panics for `N = 1` (modulo by zero); the claims assume `N ≥ 2`. -/
def makeRandomGraph (cfg : Config α) (rnd : Nat → Nat → Nat) : List (List Id) :=
  (List.range cfg.VectorsSize).map
    (fun i =>
      (List.range cfg.R).map
        (fun j =>
          let e := rnd i j % (cfg.VectorsSize - 1)
          if e ≥ i then e + 1 else e))

/-- The mean-accumulation loop of `Vamana.medoid` (lines 380–388):
`for j < len(x): mean[j] += x[j]`.  The Go code panics (index out of range)
when `len x > len mean`, that is when `Dimensions > VectorsSize`, because
`mean` is allocated with length `VectorsSize`; the embedding returns `none`
there. -/
def accumVectors [Add α] (thunk : VectorForID α) :
    List α → List Id → Option (List α)
  | mean, [] => some mean
  | mean, i :: rest =>
    match thunk i with
    | none => none
    | some x =>
      if x.length ≤ mean.length then
        accumVectors thunk (List.zipWith (fun a b => a + b) mean x ++ mean.drop x.length) rest
      else none

/-- The argmin loop of `Vamana.medoid` (lines 394–406): running state
`(min_index, min_dist)` with `min_dist` starting at `math.MaxFloat32`
(embedded as `none`) and `min_index` starting at `0`; a strictly smaller
distance replaces the minimum.  The source runs this concurrently under a
mutex; the embedding is the serialized reference order. -/
def medoidArgmin [LinearOrder α] (thunk : VectorForID α)
    (dist : DistanceFunction α) (mean : Vec α) :
    Id × Option α → List Id → Option (Id × Option α)
  | st, [] => some st
  | st, i :: rest =>
    match thunk i with
    | none => none
    | some x =>
      let d := dist x mean
      match st.2 with
      | none => medoidArgmin thunk dist mean (i, some d) rest
      | some m =>
        if d < m then medoidArgmin thunk dist mean (i, some d) rest
        else medoidArgmin thunk dist mean st rest

/-- `Vamana.medoid` (lines 375–408): allocate `mean` with length
`VectorsSize` (as the source does — not `Dimensions`), accumulate every
vector into it, divide each component by `N`, and return the id whose
distance to `mean` is minimal. -/
def medoid [LinearOrder α] [Add α] [Zero α] [Div α] [NatCast α]
    (cfg : Config α) (thunk : VectorForID α) (dist : DistanceFunction α) :
    Option Id :=
  match accumVectors thunk (List.replicate cfg.VectorsSize 0) (List.range cfg.VectorsSize) with
  | none => none
  | some acc =>
    let mean := acc.map (fun a => a / (cfg.VectorsSize : α))
    match medoidArgmin thunk dist mean (0, none) (List.range cfg.VectorsSize) with
    | none => none
    | some res => some res.1

/-- Modelled from the spec: one record of the `ssdhelpers.Set` candidate set
(spec §4.1, "a set of at most `L` records `{id, distance, visited,
has_exact_distance}`, ordered by ascending distance"). -/
structure SetRecord (α : Type) where
  id : Id
  distance : α
  visited : Bool
  hasExact : Bool
deriving DecidableEq, Repr

/-- Modelled from the spec: the `ssdhelpers.Set` bounded candidate set.
`center` is the query the set is bound to and `capacity` is `L`.  The items
are kept sorted by ascending `(distance, id)` ("ordered by ascending
distance ... ties broken by smaller id"). -/
structure CandSet (α : Type) where
  center : Vec α
  capacity : Nat
  items : List (SetRecord α)
deriving Repr

/-- Ordered insertion into the candidate list: before the first record that
is strictly greater in the `(distance, id)` order. -/
def insertOrdered [LinearOrder α] (e : SetRecord α) :
    List (SetRecord α) → List (SetRecord α)
  | [] => [e]
  | r :: rest =>
    if e.distance < r.distance ∨ (e.distance = r.distance ∧ e.id < r.id) then e :: r :: rest
    else r :: insertOrdered e rest

/-- Modelled from the spec: `Set.ReCenter` — "clears the set and binds it to
a new query vector". -/
def CandSet.reCenter (L : Nat) (x : Vec α) : CandSet α := ⟨x, L, []⟩

/-- Modelled from the spec: the common insertion path — "inserts if unknown";
"on insert past capacity `L`, the farthest element is discarded". -/
def CandSet.insertRec [LinearOrder α] (s : CandSet α) (r : SetRecord α) : CandSet α :=
  if s.items.any (fun e => e.id == r.id) then s
  else { s with items := (insertOrdered r s.items).take s.capacity }

/-- Modelled from the spec: `Set.Add` — "distance computed exactly (via
vector fetch) and status `unvisited`".  The exact distance of a candidate is
taken from its fetched vector to the bound query center. -/
def CandSet.Add [LinearOrder α] (s : CandSet α) (thunk : VectorForID α)
    (dist : DistanceFunction α) (id : Id) : Option (CandSet α) :=
  match thunk id with
  | none => none
  | some v => some (s.insertRec ⟨id, dist v s.center, false, true⟩)

/-- Modelled from the spec: `Set.AddRange` — batch `Add`. -/
def CandSet.AddRange [LinearOrder α] (s : CandSet α) (thunk : VectorForID α)
    (dist : DistanceFunction α) : List Id → Option (CandSet α)
  | [] => some s
  | i :: rest =>
    match s.Add thunk dist i with
    | none => none
    | some s1 => s1.AddRange thunk dist rest

/-- Lookup in the hot cache (`v.data.CachedEdges[x]`). -/
def lookupCached (cache : List (Id × VectorWithNeighbors α)) (x : Id) :
    Option (VectorWithNeighbors α) :=
  match cache.find? (fun e => e.1 == x) with
  | none => none
  | some e => some e.2

/-- Modelled from the spec: `Set.AddPQ` / `AddPQVector` — "inserts using
cache-resident exact distance when present, else PQ asymmetric distance;
marks whether the stored distance is exact". -/
def CandSet.AddPQVector [LinearOrder α] (s : CandSet α)
    (dist : DistanceFunction α) (pq : Vec α → List Nat → α)
    (codes : List (List Nat)) (cache : List (Id × VectorWithNeighbors α))
    (bits : List Bool) (id : Id) : CandSet α :=
  match lookupCached cache id with
  | some c => s.insertRec ⟨id, dist c.Vector s.center, false, true⟩
  | none => s.insertRec ⟨id, pq s.center (codes.getD id []), false, false⟩

/-- Modelled from the spec: `Set.AddRangePQ` — batch `AddPQ`. -/
def CandSet.AddRangePQ [LinearOrder α] (s : CandSet α)
    (dist : DistanceFunction α) (pq : Vec α → List Nat → α)
    (codes : List (List Nat)) (cache : List (Id × VectorWithNeighbors α))
    (bits : List Bool) : List Id → CandSet α
  | [] => s
  | i :: rest =>
    (s.AddPQVector dist pq codes cache bits i).AddRangePQ dist pq codes cache bits rest

/-- Mark the record with the given id as visited. -/
def markVisited (items : List (SetRecord α)) (i : Id) : List (SetRecord α) :=
  items.map (fun e => if e.id == i then { e with visited := true } else e)

/-- Modelled from the spec: `Set.Top` — "returns the smallest-distance
unvisited element and marks it visited"; the returned slot (used by
`ReSort`) is identified by the element's id. -/
def CandSet.Top [LinearOrder α] (s : CandSet α) : Option (Id × Id × CandSet α) :=
  match s.items.find? (fun e => !e.visited) with
  | none => none
  | some e => some (e.id, e.id, { s with items := markVisited s.items e.id })

/-- Modelled from the spec: `Set.TopN` — "returns up to `n` smallest-distance
unvisited elements, marking all visited; order by ascending distance". -/
def CandSet.TopN [LinearOrder α] (s : CandSet α) (n : Nat) :
    List Id × List Id × CandSet α :=
  let tops := ((s.items.filter (fun e => !e.visited)).take n).map (fun e => e.id)
  (tops, tops, { s with items := tops.foldl markVisited s.items })

/-- Modelled from the spec: `Set.ReSort` — "recomputes exact distance for a
previously PQ-scored element and reinserts". -/
def CandSet.ReSort [LinearOrder α] (s : CandSet α) (dist : DistanceFunction α)
    (slot : Id) (vec : Vec α) : CandSet α :=
  match s.items.find? (fun e => e.id == slot) with
  | none => s
  | some e =>
    let rest := s.items.filter (fun r => r.id ≠ slot)
    { s with
      items := (insertOrdered { e with distance := dist vec s.center, hasExact := true } rest).take s.capacity }

/-- Modelled from the spec: `Set.Elements` — "returns the `k`
smallest-distance ids (visited or not)". -/
def CandSet.Elements (s : CandSet α) (k : Nat) : List Id :=
  (s.items.take k).map (fun e => e.id)

/-- Modelled from the spec: `Set.NotVisited` — "true iff any element is
unvisited". -/
def CandSet.NotVisited (s : CandSet α) : Bool :=
  s.items.any (fun e => !e.visited)

/-- The `while set.NotVisited()` loop of `Vamana.greedySearch`
(lines 429–433): pop the best unvisited candidate, expand its out-edges and
record it in `allVisited`. -/
def greedySearchLoop [LinearOrder α] (v : Vamana α) (thunk : VectorForID α)
    (dist : DistanceFunction α) :
    Nat → CandSet α → List Id → Option (CandSet α × List Id)
  | 0, s, acc => some (s, acc)
  | fuel + 1, s, acc =>
    if s.NotVisited then
      match s.Top with
      | none => some (s, acc)
      | some (nn, _, s1) =>
        match s1.AddRange thunk dist (v.edges.getD nn []) with
        | none => none
        | some s2 => greedySearchLoop v thunk dist fuel s2 (acc ++ [nn])
    else some (s, acc)

/-- `Vamana.greedySearch` (lines 425–435): used during the build; returns
the best `k` elements and the full visit order. -/
def greedySearch [LinearOrder α] (v : Vamana α) (thunk : VectorForID α)
    (dist : DistanceFunction α) (fuel : Nat) (x : Vec α) (k : Nat) :
    Option (List Id × List Id) :=
  let s0 := CandSet.reCenter v.config.L x
  match s0.Add thunk dist v.data.SIndex with
  | none => none
  | some s1 =>
    match greedySearchLoop v thunk dist fuel s1 [v.data.SIndex] with
    | none => none
    | some (sF, visited) => some (sF.Elements k, visited)

/-- The neighbor-update step inside `Vamana.pass` (lines 343–350): append `x`
to `edges[j]`; if the result exceeds `R`, prune `j` with it, otherwise store
it directly. -/
def processNeighbor [LinearOrder α] [Mul α] [Zero α] (thunk : VectorForID α)
    (dist : DistanceFunction α) (x : Id) (v : Vamana α) (j : Id) :
    Option (Vamana α) :=
  let n_out_j := v.edges.getD j [] ++ [x]
  if n_out_j.length > v.config.R then robustPrune v thunk dist j n_out_j
  else some { v with edges := v.edges.set j n_out_j }

/-- The loop over `n_out_i` inside `Vamana.pass`. -/
def passNeighbors [LinearOrder α] [Mul α] [Zero α] (thunk : VectorForID α)
    (dist : DistanceFunction α) (x : Id) :
    Vamana α → List Id → Option (Vamana α)
  | v, [] => some v
  | v, j :: rest =>
    match processNeighbor thunk dist x v j with
    | none => none
    | some v1 => passNeighbors thunk dist x v1 rest

/-- One iteration of the outer loop of `Vamana.pass` (lines 333–351): greedy
search from the point's own vector, prune the point with the visit set, then
update each of its new out-neighbors. -/
def passStep [LinearOrder α] [Mul α] [Zero α] (thunk : VectorForID α)
    (dist : DistanceFunction α) (fuel : Nat) (v : Vamana α) (x : Id) :
    Option (Vamana α) :=
  match thunk x with
  | none => none
  | some q =>
    match greedySearch v thunk dist fuel q 1 with
    | none => none
    | some res =>
      match robustPrune v thunk dist x res.2 with
      | none => none
      | some v1 => passNeighbors thunk dist x v1 (v1.edges.getD x [])

/-- The iteration of `passStep` over a list of ids. -/
def passRun [LinearOrder α] [Mul α] [Zero α] (thunk : VectorForID α)
    (dist : DistanceFunction α) (fuel : Nat) :
    Vamana α → List Nat → Option (Vamana α)
  | v, [] => some v
  | v, x :: rest =>
    match passStep thunk dist fuel v x with
    | none => none
    | some v1 => passRun thunk dist fuel v1 rest

/-- `Vamana.pass` (lines 331–352): process every id in a random
permutation. -/
def pass [LinearOrder α] [Mul α] [Zero α] (thunk : VectorForID α)
    (dist : DistanceFunction α) (fuel : Nat) (rnd : Nat → Nat) (v : Vamana α) :
    Option (Vamana α) :=
  passRun thunk dist fuel v (permutation v.config.VectorsSize rnd)

/-- `Vamana.BuildIndex` (lines 175–184): random graph, medoid entry point,
one pass with `Alpha := 1`, then one pass with the configured `Alpha`
(restored before the second pass).  `SetL(v.config.L)` only rebuilds the
scratch candidate set, leaving the configuration unchanged. -/
def BuildIndex [LinearOrder α] [Mul α] [Zero α] [One α] [Add α] [Div α] [NatCast α]
    (v : Vamana α) (thunk : VectorForID α) (dist : DistanceFunction α)
    (rndG : Nat → Nat → Nat) (rnd1 rnd2 : Nat → Nat) (fuel : Nat) :
    Option (Vamana α) :=
  let v0 := { v with edges := makeRandomGraph v.config rndG }
  match medoid v0.config thunk dist with
  | none => none
  | some s =>
    let v1 := { v0 with data := { v0.data with SIndex := s } }
    let alpha := v1.config.Alpha
    let v2 := { v1 with config := { v1.config with Alpha := 1 } }
    match pass thunk dist fuel rnd1 v2 with
    | none => none
    | some v3 =>
      let v4 := { v3 with config := { v3.config with Alpha := alpha } }
      pass thunk dist fuel rnd2 v4

/-- `Vamana.outNeighborsFromMemory` (lines 491–493). -/
def outNeighborsFromMemory (v : Vamana α) (x : Id) : List Id × Option (Vec α) :=
  (v.edges.getD x [], none)

/-- `Vamana.OutNeighborsFromDisk` (lines 495–501): a hot-cache hit returns the
cached neighbors with no vector; otherwise the fixed-width graph-file row is
read (`ssdhelpers.ReadGraphRowWithBinary`, modelled from the spec §4.3 as a
lookup of the parsed `(neighbors, vector)` row). -/
def OutNeighborsFromDisk (v : Vamana α) (x : Id) : List Id × Option (Vec α) :=
  match lookupCached v.data.CachedEdges x with
  | some cached => (cached.OutNeighbors, none)
  | none =>
    let row := v.graphFile.getD x ([], [])
    (row.1, some row.2)

/-- The `v.outNeighbors` dispatch field: disk or memory variant. -/
def outNeighbors (v : Vamana α) (x : Id) : List Id × Option (Vec α) :=
  if v.outNeighborsDisk then OutNeighborsFromDisk v x else outNeighborsFromMemory v x

/-- The `v.addRange` dispatch field: `addRangePQ` (lines 441–443) or
`addRangeVectors` (lines 437–439). -/
def addRangeDispatch [LinearOrder α] (v : Vamana α) (thunk : VectorForID α)
    (dist : DistanceFunction α) (s : CandSet α) (elements : List Id) :
    Option (CandSet α) :=
  if v.addRangePQFlag then
    some (s.AddRangePQ dist v.pq v.data.EncondedVectors v.data.CachedEdges v.cachedBitMap elements)
  else s.AddRange thunk dist elements

/-- `diskAnn.secuentialBeamSearch` (lines 465–472): pop one candidate, fetch
its row, re-sort when an exact vector came back, then add the neighbors. -/
def secuentialBeamSearch [LinearOrder α] (v : Vamana α) (thunk : VectorForID α)
    (dist : DistanceFunction α) (s : CandSet α) : Option (CandSet α) :=
  match s.Top with
  | none => some s
  | some (top, index, s1) =>
    let row := outNeighbors v top
    let s2 := match row.2 with
      | some vec => s1.ReSort dist index vec
      | none => s1
    addRangeDispatch v thunk dist s2 row.1

/-- `diskAnn.beamSearch` (lines 450–463): pop up to `BeamSize` candidates,
fetch all their rows, then for each in fetch order re-sort (when an exact
vector came back) and add its neighbors. -/
def beamSearchStep [LinearOrder α] (v : Vamana α) (thunk : VectorForID α)
    (dist : DistanceFunction α) (s : CandSet α) : Option (CandSet α) :=
  match s.TopN v.config.BeamSize with
  | (tops, indexes, s1) =>
    let rows := tops.map (outNeighbors v)
    (List.zip indexes rows).foldlM
      (fun acc pr =>
        let acc1 := match pr.2.2 with
          | some vec => acc.ReSort dist pr.1 vec
          | none => acc
        addRangeDispatch v thunk dist acc1 pr.2.1)
      s1

/-- One iteration of the query loop through the `beamSearchHolder` field:
`secuentialBeamSearch` stays sequential, `initBeamSearch` (lines 445–448)
runs one sequential step and reseats the holder to `beamSearch`. -/
def beamStepHolder [LinearOrder α] (v : Vamana α) (thunk : VectorForID α)
    (dist : DistanceFunction α) :
    BeamStrategy → CandSet α → Option (CandSet α × BeamStrategy)
  | BeamStrategy.secuential, s =>
    match secuentialBeamSearch v thunk dist s with
    | none => none
    | some s1 => some (s1, BeamStrategy.secuential)
  | BeamStrategy.initialStep, s =>
    match secuentialBeamSearch v thunk dist s with
    | none => none
    | some s1 => some (s1, BeamStrategy.beam)
  | BeamStrategy.beam, s =>
    match beamSearchStep v thunk dist s with
    | none => none
    | some s1 => some (s1, BeamStrategy.beam)

/-- The `while set.NotVisited()` loop of `Vamana.greedySearchQuery`
(lines 482–484). -/
def querySearchLoop [LinearOrder α] (v : Vamana α) (thunk : VectorForID α)
    (dist : DistanceFunction α) :
    Nat → CandSet α → BeamStrategy → Option (CandSet α × BeamStrategy)
  | 0, s, h => some (s, h)
  | fuel + 1, s, h =>
    if s.NotVisited then
      match beamStepHolder v thunk dist h s with
      | none => none
      | some (s1, h1) => querySearchLoop v thunk dist fuel s1 h1
    else some (s, h)

/-- `Vamana.greedySearchQuery` (lines 474–489): recenter, seed with the entry
point (PQ-scored when on disk), loop until every candidate is visited, and
return the best `k`.  The final holder reset (lines 485–487) only prepares
the next query and does not affect the returned elements. -/
def greedySearchQuery [LinearOrder α] (v : Vamana α) (thunk : VectorForID α)
    (dist : DistanceFunction α) (fuel : Nat) (x : Vec α) (k : Nat) :
    Option (List Id) :=
  let s0 := CandSet.reCenter v.config.L x
  let seeded : Option (CandSet α) :=
    if v.data.OnDisk then
      some (s0.AddPQVector dist v.pq v.data.EncondedVectors v.data.CachedEdges v.cachedBitMap v.data.SIndex)
    else s0.Add thunk dist v.data.SIndex
  match seeded with
  | none => none
  | some s1 =>
    match querySearchLoop v thunk dist fuel s1 v.beamSearchHolder with
    | none => none
    | some (sF, _) => some (sF.Elements k)

/-- `Vamana.SearchByVector` (lines 200–202): a direct forward to
`greedySearchQuery` — no validation of the query length and no emptiness
check. -/
def SearchByVector [LinearOrder α] (v : Vamana α) (thunk : VectorForID α)
    (dist : DistanceFunction α) (fuel : Nat) (query : Vec α) (k : Nat) :
    Option (List Id) :=
  greedySearchQuery v thunk dist fuel query k

/-- The query loop as claim C6 describes it: every iteration is a beam step
(`beamSearch`), with no initial sequential step. -/
def allBeamLoop [LinearOrder α] (v : Vamana α) (thunk : VectorForID α)
    (dist : DistanceFunction α) : Nat → CandSet α → Option (CandSet α)
  | 0, s => some s
  | fuel + 1, s =>
    if s.NotVisited then
      match beamSearchStep v thunk dist s with
      | none => none
      | some s1 => allBeamLoop v thunk dist fuel s1
    else some s

/-- The whole query as claim C6 describes it for a disk-resident index:
seed with the PQ-scored entry point, then iterate pure beam steps. -/
def greedySearchQueryAllBeam [LinearOrder α] (v : Vamana α)
    (thunk : VectorForID α) (dist : DistanceFunction α) (fuel : Nat)
    (x : Vec α) (k : Nat) : Option (List Id) :=
  let s0 := CandSet.reCenter v.config.L x
  let s1 := s0.AddPQVector dist v.pq v.data.EncondedVectors v.data.CachedEdges v.cachedBitMap v.data.SIndex
  match allBeamLoop v thunk dist fuel s1 with
  | none => none
  | some sF => some (sF.Elements k)

/-- The directory written by `Vamana.ToDisk` (lines 204–241): gob-encoded
config, data and edge list, plus the PQ artifacts and the cache bitmap
(`pq.ToDisk`, `cachedBitMap.ToDisk`).  The gob round-trip is lossless for
these value types, so the persisted artifacts are embedded as the values
themselves. -/
structure Persisted (α : Type) where
  config : Config α
  data : VamanaData α
  edges : List (List Id)
  pqStore : Vec α → List Nat → α
  bitmap : List Bool

/-- `Vamana.ToDisk` (lines 204–241). -/
def ToDisk (v : Vamana α) : Persisted α :=
  ⟨v.config, v.data, v.edges, v.pq, v.cachedBitMap⟩

/-- `diskAnn.VamanaFromDisk` (lines 273–329): decode config (overwriting its
`Dimensions` with the constant `128`), data and edges, re-read the PQ and the
cache bitmap, and reseat the dispatch fields according to the decoded
`OnDisk` flag and `BeamSize`.  The external fixed-width graph file at
`data.GraphID` is merely re-opened (its contents are not part of the
persisted directory), embedded as an empty row list. -/
def VamanaFromDisk (p : Persisted α) : Vamana α :=
  let config := { p.config with Dimensions := 128 }
  { config := config
    data := p.data
    cachedBitMap := p.bitmap
    edges := p.edges
    graphFile := []
    pq := p.pqStore
    outNeighborsDisk := p.data.OnDisk
    addRangePQFlag := p.data.OnDisk
    beamSearchHolder :=
      if p.data.OnDisk ∧ p.config.BeamSize > 1 then BeamStrategy.initialStep
      else BeamStrategy.secuential }

/-- Modelled from the spec (claim C5's reading of §4.6): the medoid with the
mean allocated at length `Dimensions` — "Compute the component-wise mean
vector (a vector of length D, each component divided by N), then find the id
whose exact distance to the mean is minimum". -/
def medoidSpec [LinearOrder α] [Add α] [Zero α] [Div α] [NatCast α]
    (cfg : Config α) (thunk : VectorForID α) (dist : DistanceFunction α) :
    Option Id :=
  match accumVectors thunk (List.replicate cfg.Dimensions 0) (List.range cfg.VectorsSize) with
  | none => none
  | some acc =>
    let mean := acc.map (fun a => a / (cfg.VectorsSize : α))
    match medoidArgmin thunk dist mean (0, none) (List.range cfg.VectorsSize) with
    | none => none
    | some res => some res.1

/-- The degree/self-loop invariant of §8 property 1: every neighbor list has
length at most `R` and no node lists itself. -/
def DegreeInvariant (R : Nat) (edges : List (List Id)) : Prop :=
  ∀ p, (edges.getD p []).length ≤ R ∧ p ∉ edges.getD p []

/-- Every working-set element's cached distance is either the unset sentinel
`0` or the true distance of its vector to `qP`. -/
def DistCacheOk [Zero α] (thunk : VectorForID α) (dist : DistanceFunction α)
    (qP : Vec α) (items : List (IndexAndDistance α)) : Prop :=
  ∀ e ∈ items, e.distance = 0 ∨ ∃ w, thunk e.index = some w ∧ e.distance = dist w qP

/-- Every working-set element's cached distance is the true distance of its
vector to `qP` (the state right after `closest` has scanned the set). -/
def DistCacheExact (thunk : VectorForID α) (dist : DistanceFunction α)
    (qP : Vec α) (items : List (IndexAndDistance α)) : Prop :=
  ∀ e ∈ items, ∃ w, thunk e.index = some w ∧ e.distance = dist w qP

/-- Every already selected neighbor `alpha`-dominates every remaining
working-set element. -/
def DominatesSet [Mul α] [LT α] (thunk : VectorForID α)
    (dist : DistanceFunction α) (alpha : α) (qP : Vec α) (out : List Id)
    (items : List (IndexAndDistance α)) : Prop :=
  ∀ a ∈ out, ∀ e ∈ items, ∀ va ve, thunk a = some va → thunk e.index = some ve →
    alpha * dist va ve > dist ve qP

/-- The diversity condition of §8 property 6 on a selected neighbor list:
for any earlier `u` and later `w`, `alpha · d(u, w) > d(w, p)`. -/
def Diverse [Mul α] [LT α] (thunk : VectorForID α) (dist : DistanceFunction α)
    (alpha : α) (qP : Vec α) (out : List Id) : Prop :=
  ∀ i j, i < j → j < out.length → ∀ vu vw,
    thunk (out.getD i 0) = some vu → thunk (out.getD j 0) = some vw →
    alpha * dist vu vw > dist vw qP

section ConcreteInstances

/-- A two-point, one-dimensional corpus used to exercise the build. -/
def cfgW : Config ℤ :=
  ⟨1, 2, 1, 2, 1, 0, 1, 1, 1⟩

/-- Vector fetch for the two-point corpus: `0 ↦ [0]`, `1 ↦ [1]`. -/
def thunkW : VectorForID ℤ :=
  fun i => if i = 0 then some [0] else if i = 1 then some [1] else none

/-- A fresh in-memory index over the two-point corpus. -/
def vW : Vamana ℤ :=
  { config := cfgW
    data := ⟨0, "", [], [], false⟩
    cachedBitMap := []
    edges := []
    graphFile := []
    pq := fun _ _ => 0
    outNeighborsDisk := false
    addRangePQFlag := false
    beamSearchHolder := BeamStrategy.secuential }

/-- Constant-zero random stream for `permutation`. -/
def rndZ : Nat → Nat := fun _ => 0

/-- Constant-zero random stream for `makeRandomGraph`. -/
def rndGZ : Nat → Nat → Nat := fun _ _ => 0

/-- The result of building `vW`. -/
def vOutW : Vamana ℤ :=
  { vW with edges := [[1], [0]] }

/-- A three-point corpus for exercising `robustPrune`:
`0 ↦ [0]`, `1 ↦ [4]`, `2 ↦ [-5]`. -/
def thunkC3 : VectorForID ℤ :=
  fun i =>
    if i = 0 then some [0] else if i = 1 then some [4]
    else if i = 2 then some [-5] else none

/-- An index over the three-point corpus with `R = 2` and empty edges. -/
def vC3 : Vamana ℤ :=
  { config := ⟨2, 2, 1, 3, 1, 0, 1, 1, 1⟩
    data := ⟨0, "", [], [], false⟩
    cachedBitMap := []
    edges := [[], [], []]
    graphFile := []
    pq := fun _ _ => 0
    outNeighborsDisk := false
    addRangePQFlag := false
    beamSearchHolder := BeamStrategy.secuential }

/-- The result of pruning node `0` of `vC3` against the candidates `[1, 2]`. -/
def vOutC3 : Vamana ℤ :=
  { vC3 with edges := [[1, 2], [], []] }

/-- A two-point config with `R = 2`, used to exhibit duplicate random
neighbors. -/
def cfgR2 : Config ℤ :=
  ⟨2, 2, 1, 2, 1, 0, 1, 1, 1⟩

/-- A two-point corpus of dimension `3 > N = 2`, the input on which
`medoid` hits an out-of-range index. -/
def cfgD3 : Config ℤ :=
  ⟨1, 1, 1, 2, 3, 0, 1, 1, 1⟩

/-- Vector fetch for the dimension-3 corpus. -/
def thunkD3 : VectorForID ℤ :=
  fun i => if i = 0 then some [1, 0, 0] else if i = 1 then some [0, 1, 0] else none

/-- A disk-resident two-point index with `BeamSize = 2` whose nodes are all
hot-cached. -/
def vBeam : Vamana ℤ :=
  { config := ⟨1, 2, 1, 2, 1, 2, 2, 1, 1⟩
    data := ⟨0, "", [(0, ⟨[0], [1]⟩), (1, ⟨[1], [0]⟩)], [[], []], true⟩
    cachedBitMap := [true, true]
    edges := []
    graphFile := []
    pq := fun _ _ => 0
    outNeighborsDisk := true
    addRangePQFlag := true
    beamSearchHolder := BeamStrategy.initialStep }

/-- Vector fetch for `vBeam` (never consulted by the disk search path). -/
def thunkBeam : VectorForID ℤ :=
  fun i => if i = 0 then some [0] else if i = 1 then some [1] else none

/-- An in-memory two-point index of dimension `2`, queried with a length-3
vector for claim C7. -/
def vMem : Vamana ℤ :=
  { config := ⟨1, 2, 1, 2, 2, 0, 1, 1, 1⟩
    data := ⟨0, "", [], [], false⟩
    cachedBitMap := []
    edges := [[1], [0]]
    graphFile := []
    pq := fun _ _ => 0
    outNeighborsDisk := false
    addRangePQFlag := false
    beamSearchHolder := BeamStrategy.secuential }

/-- Vector fetch for `vMem`: `0 ↦ [0,0]`, `1 ↦ [1,1]`. -/
def thunkMem : VectorForID ℤ :=
  fun i => if i = 0 then some [0, 0] else if i = 1 then some [1, 1] else none

end ConcreteInstances

/-! ### List helper lemmas -/

theorem mem_getD {β : Type} (l : List β) (i : Nat) (d : β) (h : i < l.length) :
    l.getD i d ∈ l := by
  rw [List.getD_eq_getElem?_getD, List.getElem?_eq_getElem h]
  exact List.getElem_mem h

theorem getD_append_lt {β : Type} (l l2 : List β) (i : Nat) (d : β)
    (h : i < l.length) : (l ++ l2).getD i d = l.getD i d := by
  rw [List.getD_eq_getElem?_getD, List.getD_eq_getElem?_getD,
    List.getElem?_append_left h]

theorem getD_concat_len {β : Type} (l : List β) (a d : β) :
    (l ++ [a]).getD l.length d = a := by
  rw [List.getD_eq_getElem?_getD, List.getElem?_append_right (Nat.le_refl _)]
  simp

theorem getD_set_self {β : Type} (l : List β) (i : Nat) (a d : β)
    (h : i < l.length) : (l.set i a).getD i d = a := by
  rw [List.getD_eq_getElem?_getD, List.getElem?_set_self]
  · simp
  · exact h

theorem getD_set_other {β : Type} (l : List β) (i j : Nat) (a d : β)
    (h : i ≠ j) : (l.set i a).getD j d = l.getD j d := by
  rw [List.getD_eq_getElem?_getD, List.getD_eq_getElem?_getD,
    List.getElem?_set_ne h]

theorem find?_of_filter_nil {β : Type} (p : β → Bool) (l : List β)
    (h : l.filter p = []) : l.find? p = none := by
  rw [List.find?_eq_none]
  intro x hx hpx
  have : x ∈ l.filter p := List.mem_filter.2 ⟨hx, hpx⟩
  rw [h] at this
  exact absurd this (List.not_mem_nil x)

theorem find?_of_filter_singleton {β : Type} (p : β → Bool) (l : List β)
    (e : β) (h : l.filter p = [e]) : l.find? p = some e := by
  induction l with
  | nil => simp at h
  | cons x rest ih =>
    by_cases hx : p x
    · rw [List.filter_cons_of_pos hx] at h
      have hxe : x = e := (List.cons_eq_cons.1 h).1
      subst hxe
      simp [List.find?, hx]
    · rw [List.filter_cons_of_neg hx] at h
      simp only [List.find?, hx]
      exact ih h

/-! ### Frame lemmas for the build: `robustPrune` and `pass` touch only the
edge list, and only the pruned node's entry. -/

theorem robustPrune_shape [LinearOrder α] [Mul α] [Zero α] (v : Vamana α)
    (thunk : VectorForID α) (dist : DistanceFunction α) (p : Id)
    (visited : List Id) (v' : Vamana α)
    (hE : robustPrune v thunk dist p visited = some v') :
    v'.config = v.config ∧ v'.data = v.data ∧
      ∃ out : List Id, v'.edges = v.edges.set p out ∧
        robustPruneLoop thunk dist v.config.Alpha v.config.R
          ((thunk p).getD [])
          (pruneWorkSet v visited p).length
          (pruneWorkSet v visited p)
          [] = some out := by
  simp only [robustPrune] at hE
  rcases hq : thunk p with _ | qP
  · rw [hq] at hE
    simp at hE
  · rw [hq] at hE
    dsimp only at hE
    rcases hl : robustPruneLoop thunk dist v.config.Alpha v.config.R qP
        (pruneWorkSet v visited p).length
        (pruneWorkSet v visited p)
        [] with _ | out
    · rw [hl] at hE
      cases hE
    · rw [hl] at hE
      have hv : v' = { v with edges := v.edges.set p out } := (Option.some.inj hE).symm
      refine ⟨by rw [hv], by rw [hv], out, by rw [hv], ?_⟩
      rw [Option.getD_some]
      exact hl

theorem minItemAux_mem [LinearOrder α] :
    ∀ (l : List (IndexAndDistance α)) (acc : Option (IndexAndDistance α))
      (m : IndexAndDistance α), minItemAux acc l = some m →
      acc = some m ∨ m ∈ l := by
  intro l
  induction l with
  | nil =>
    intro acc m h
    exact Or.inl h
  | cons e rest ih =>
    intro acc m h
    simp only [minItemAux] at h
    cases acc with
    | none =>
      dsimp only at h
      rcases ih (some e) m h with h1 | h1
      · cases Option.some.inj h1
        exact Or.inr (List.mem_cons_self _ _)
      · exact Or.inr (List.mem_cons_of_mem e h1)
    | some a =>
      dsimp only at h
      by_cases hlt : a.distance > e.distance
      · rw [if_pos hlt] at h
        rcases ih (some e) m h with h1 | h1
        · cases Option.some.inj h1
          exact Or.inr (List.mem_cons_self _ _)
        · exact Or.inr (List.mem_cons_of_mem e h1)
      · rw [if_neg hlt] at h
        rcases ih (some a) m h with h1 | h1
        · exact Or.inl h1
        · exact Or.inr (List.mem_cons_of_mem e h1)

theorem minItem_mem [LinearOrder α] (items : List (IndexAndDistance α))
    (m : IndexAndDistance α) (h : minItem items = some m) : m ∈ items := by
  rcases minItemAux_mem items none m h with h1 | h1
  · cases h1
  · exact h1

theorem closestScan_indexes [Zero α] [DecidableEq α] (thunk : VectorForID α)
    (dist : DistanceFunction α) (x : Vec α) :
    ∀ (items items1 : List (IndexAndDistance α)),
      closestScan thunk dist x items = some items1 →
      ∀ e1 ∈ items1, ∃ e, e ∈ items ∧ e1.index = e.index := by
  intro items
  induction items with
  | nil =>
    intro items1 h e1 he1
    simp only [closestScan] at h
    rw [← Option.some.inj h] at he1
    exact absurd he1 (List.not_mem_nil e1)
  | cons e rest ih =>
    intro items1 h e1 he1
    simp only [closestScan] at h
    rcases hr : closestScan thunk dist x rest with _ | rest1
    · rw [hr] at h
      cases h
    · rw [hr] at h
      dsimp only at h
      by_cases hz : e.distance = 0
      · rw [if_pos hz] at h
        rcases hq : thunk e.index with _ | qi
        · rw [hq] at h
          cases h
        · rw [hq] at h
          dsimp only at h
          rw [← Option.some.inj h] at he1
          rcases List.mem_cons.1 he1 with h1 | h1
          · exact ⟨e, List.mem_cons_self e rest, by rw [h1]⟩
          · rcases ih rest1 hr e1 h1 with ⟨e2, he2, hee⟩
            exact ⟨e2, List.mem_cons_of_mem e he2, hee⟩
      · rw [if_neg hz] at h
        rw [← Option.some.inj h] at he1
        rcases List.mem_cons.1 he1 with h1 | h1
        · exact ⟨e, List.mem_cons_self e rest, by rw [h1]⟩
        · rcases ih rest1 hr e1 h1 with ⟨e2, he2, hee⟩
          exact ⟨e2, List.mem_cons_of_mem e he2, hee⟩

theorem removeDominated_subset [LinearOrder α] [Mul α] (thunk : VectorForID α)
    (dist : DistanceFunction α) (alpha : α) (qPMin : Vec α) :
    ∀ (items items2 : List (IndexAndDistance α)),
      removeDominated thunk dist alpha qPMin items = some items2 →
      ∀ e ∈ items2, e ∈ items := by
  intro items
  induction items with
  | nil =>
    intro items2 h e he
    simp only [removeDominated] at h
    rw [← Option.some.inj h] at he
    exact absurd he (List.not_mem_nil e)
  | cons x rest ih =>
    intro items2 h e he
    simp only [removeDominated] at h
    rcases hq : thunk x.index with _ | qX
    · rw [hq] at h
      cases h
    · rw [hq] at h
      dsimp only at h
      rcases hr : removeDominated thunk dist alpha qPMin rest with _ | rest1
      · rw [hr] at h
        cases h
      · rw [hr] at h
        dsimp only at h
        by_cases hc : alpha * dist qPMin qX ≤ x.distance
        · rw [if_pos hc] at h
          rw [← Option.some.inj h] at he
          exact List.mem_cons_of_mem x (ih rest1 hr e he)
        · rw [if_neg hc] at h
          rw [← Option.some.inj h] at he
          rcases List.mem_cons.1 he with h1 | h1
          · rw [h1]
            exact List.mem_cons_self x rest
          · exact List.mem_cons_of_mem x (ih rest1 hr e h1)

theorem rp_loop_inv [LinearOrder α] [Mul α] [Zero α] (thunk : VectorForID α)
    (dist : DistanceFunction α) (alpha : α) (R : Nat) (qP : Vec α) :
    ∀ (fuel : Nat) (items : List (IndexAndDistance α)) (out res : List Id),
      robustPruneLoop thunk dist alpha R qP fuel items out = some res →
      out.length < R → out.Nodup →
      res.length ≤ R ∧ res.Nodup ∧
        (∀ r ∈ res, r ∈ out ∨ ∃ e, e ∈ items ∧ r = e.index) := by
  intro fuel
  induction fuel with
  | zero =>
    intro items out res hE hlen hnd
    simp only [robustPruneLoop] at hE
    rw [← Option.some.inj hE]
    exact ⟨Nat.le_of_lt hlen, hnd, fun r hr => Or.inl hr⟩
  | succ f ih =>
    intro items out res hE hlen hnd
    simp only [robustPruneLoop] at hE
    by_cases hemp : items.isEmpty
    · rw [if_pos hemp] at hE
      rw [← Option.some.inj hE]
      exact ⟨Nat.le_of_lt hlen, hnd, fun r hr => Or.inl hr⟩
    · rw [if_neg hemp] at hE
      rcases hcs : closestScan thunk dist qP items with _ | items1
      · rw [hcs] at hE
        cases hE
      · rw [hcs] at hE
        dsimp only at hE
        rcases hmin : minItem items1 with _ | pMin
        · rw [hmin] at hE
          cases hE
        · rw [hmin] at hE
          dsimp only at hE
          rcases hq : thunk pMin.index with _ | qPMin
          · rw [hq] at hE
            cases hE
          · rw [hq] at hE
            dsimp only at hE
            have hpm : ∃ e, e ∈ items ∧ pMin.index = e.index :=
              closestScan_indexes thunk dist qP items items1 hcs pMin (minItem_mem items1 pMin hmin)
            by_cases hc : out.contains pMin.index = true
            · rw [if_pos hc] at hE
              by_cases hR : out.length = R
              · exact absurd hR (Nat.ne_of_lt hlen)
              · rw [if_neg hR] at hE
                rcases hrd : removeDominated thunk dist alpha qPMin items1 with _ | items2
                · rw [hrd] at hE
                  cases hE
                · rw [hrd] at hE
                  rcases ih items2 out res hE hlen hnd with ⟨h1, h2, h3⟩
                  refine ⟨h1, h2, fun r hr => ?_⟩
                  rcases h3 r hr with h4 | ⟨e, he, hre⟩
                  · exact Or.inl h4
                  · have he1 : e ∈ items1 :=
                      removeDominated_subset thunk dist alpha qPMin items1 items2 hrd e he
                    rcases closestScan_indexes thunk dist qP items items1 hcs e he1 with ⟨e2, he2, hee⟩
                    exact Or.inr ⟨e2, he2, by rw [hre, hee]⟩
            · rw [if_neg hc] at hE
              have hnotmem : pMin.index ∉ out := by
                intro hmem
                exact hc (List.elem_eq_true_of_mem hmem)
              have hnd1 : (out ++ [pMin.index]).Nodup := by
                simp [List.nodup_append, hnd, hnotmem]
              have hlen1 : (out ++ [pMin.index]).length = out.length + 1 := by
                simp
              have hmem1 : ∀ r ∈ out ++ [pMin.index],
                  r ∈ out ∨ ∃ e, e ∈ items ∧ r = e.index := by
                intro r hr
                rcases List.mem_append.1 hr with h4 | h4
                · exact Or.inl h4
                · rcases hpm with ⟨e, he, hee⟩
                  have hrp : r = pMin.index := List.mem_singleton.1 h4
                  exact Or.inr ⟨e, he, by rw [hrp, hee]⟩
              by_cases hR : (out ++ [pMin.index]).length = R
              · rw [if_pos hR] at hE
                rw [← Option.some.inj hE]
                exact ⟨Nat.le_of_eq hR, hnd1, hmem1⟩
              · rw [if_neg hR] at hE
                rcases hrd : removeDominated thunk dist alpha qPMin items1 with _ | items2
                · rw [hrd] at hE
                  cases hE
                · rw [hrd] at hE
                  have hlt1 : (out ++ [pMin.index]).length < R := by
                    exact Nat.lt_of_le_of_ne (by rw [hlen1]; exact Nat.succ_le_of_lt hlen) hR
                  rcases ih items2 (out ++ [pMin.index]) res hE hlt1 hnd1 with ⟨h1, h2, h3⟩
                  refine ⟨h1, h2, fun r hr => ?_⟩
                  rcases h3 r hr with h4 | ⟨e, he, hre⟩
                  · exact hmem1 r h4
                  · have he1 : e ∈ items1 :=
                      removeDominated_subset thunk dist alpha qPMin items1 items2 hrd e he
                    rcases closestScan_indexes thunk dist qP items items1 hcs e he1 with ⟨e2, he2, hee⟩
                    exact Or.inr ⟨e2, he2, by rw [hre, hee]⟩

theorem pruneWorkSet_ne [Zero α] (v : Vamana α) (visited : List Id) (p : Id) :
    ∀ e ∈ (pruneWorkSet v visited p : List (IndexAndDistance α)), e.index ≠ p := by
  intro e he
  unfold pruneWorkSet set2Remove at he
  exact of_decide_eq_true (List.mem_filter.1 he).2

theorem robustPrune_out [LinearOrder α] [Mul α] [Zero α] (v : Vamana α)
    (thunk : VectorForID α) (dist : DistanceFunction α) (p : Id)
    (visited : List Id) (v' : Vamana α) (hR : 1 ≤ v.config.R)
    (hE : robustPrune v thunk dist p visited = some v') :
    v'.config = v.config ∧ v'.data = v.data ∧
      ∃ out : List Id, v'.edges = v.edges.set p out ∧
        out.length ≤ v.config.R ∧ out.Nodup ∧ p ∉ out := by
  rcases robustPrune_shape v thunk dist p visited v' hE with ⟨hc, hd, out, hedges, hloop⟩
  rcases rp_loop_inv thunk dist v.config.Alpha v.config.R ((thunk p).getD [])
      (pruneWorkSet v visited p).length (pruneWorkSet v visited p) [] out hloop
      (Nat.lt_of_lt_of_le Nat.zero_lt_one hR) List.nodup_nil with ⟨h1, h2, h3⟩
  refine ⟨hc, hd, out, hedges, h1, h2, fun hp => ?_⟩
  rcases h3 p hp with h4 | ⟨e, he, hpe⟩
  · exact absurd h4 (List.not_mem_nil p)
  · exact pruneWorkSet_ne v visited p e he (by rw [hpe])

theorem DegreeInvariant.set (R : Nat) (l : List (List Id)) (p : Id)
    (out : List Id) (hInv : DegreeInvariant R l) (hout : out.length ≤ R)
    (hp : p ∉ out) : DegreeInvariant R (l.set p out) := by
  intro q
  by_cases hq : q = p
  · subst hq
    by_cases hlt : q < l.length
    · rw [getD_set_self l q out [] hlt]
      exact ⟨hout, hp⟩
    · rw [List.set_eq_of_length_le (Nat.le_of_not_lt hlt)]
      exact hInv q
  · rw [getD_set_other l p q out [] (fun h => hq h.symm)]
    exact hInv q

theorem robustPrune_inv [LinearOrder α] [Mul α] [Zero α] (v : Vamana α)
    (thunk : VectorForID α) (dist : DistanceFunction α) (p : Id)
    (visited : List Id) (v' : Vamana α) (hR : 1 ≤ v.config.R)
    (hInv : DegreeInvariant v.config.R v.edges)
    (hE : robustPrune v thunk dist p visited = some v') :
    DegreeInvariant v.config.R v'.edges := by
  rcases robustPrune_out v thunk dist p visited v' hR hE with
    ⟨_, _, out, hedges, h1, _, h3⟩
  rw [hedges]
  exact DegreeInvariant.set v.config.R v.edges p out hInv h1 h3

theorem processNeighbor_frame [LinearOrder α] [Mul α] [Zero α] (v : Vamana α)
    (thunk : VectorForID α) (dist : DistanceFunction α) (x j : Id)
    (v1 : Vamana α) (hE : processNeighbor thunk dist x v j = some v1) :
    v1.config = v.config ∧ v1.data = v.data := by
  simp only [processNeighbor] at hE
  by_cases hlen : (v.edges.getD j [] ++ [x]).length > v.config.R
  · rw [if_pos hlen] at hE
    rcases robustPrune_shape v thunk dist j (v.edges.getD j [] ++ [x]) v1 hE with ⟨hc, hd, _⟩
    exact ⟨hc, hd⟩
  · rw [if_neg hlen] at hE
    have hv : v1 = { v with edges := v.edges.set j (v.edges.getD j [] ++ [x]) } :=
      (Option.some.inj hE).symm
    rw [hv]
    exact ⟨rfl, rfl⟩

theorem processNeighbor_inv [LinearOrder α] [Mul α] [Zero α] (v : Vamana α)
    (thunk : VectorForID α) (dist : DistanceFunction α) (x j : Id)
    (v1 : Vamana α) (hR : 1 ≤ v.config.R) (hjx : j ≠ x)
    (hInv : DegreeInvariant v.config.R v.edges)
    (hE : processNeighbor thunk dist x v j = some v1) :
    DegreeInvariant v.config.R v1.edges := by
  simp only [processNeighbor] at hE
  by_cases hlen : (v.edges.getD j [] ++ [x]).length > v.config.R
  · rw [if_pos hlen] at hE
    exact robustPrune_inv v thunk dist j (v.edges.getD j [] ++ [x]) v1 hR hInv hE
  · rw [if_neg hlen] at hE
    have hv : v1 = { v with edges := v.edges.set j (v.edges.getD j [] ++ [x]) } :=
      (Option.some.inj hE).symm
    rw [hv]
    refine DegreeInvariant.set v.config.R v.edges j (v.edges.getD j [] ++ [x])
      hInv (Nat.le_of_not_lt hlen) ?_
    intro hmem
    rcases List.mem_append.1 hmem with h1 | h1
    · exact (hInv j).2 h1
    · exact hjx (List.mem_singleton.1 h1)

theorem passNeighbors_frame [LinearOrder α] [Mul α] [Zero α]
    (thunk : VectorForID α) (dist : DistanceFunction α) (x : Id) :
    ∀ (l : List Id) (v v1 : Vamana α),
      passNeighbors thunk dist x v l = some v1 →
      v1.config = v.config ∧ v1.data = v.data := by
  intro l
  induction l with
  | nil =>
    intro v v1 hE
    simp only [passNeighbors] at hE
    rw [← Option.some.inj hE]
    exact ⟨rfl, rfl⟩
  | cons j rest ih =>
    intro v v1 hE
    simp only [passNeighbors] at hE
    rcases hpn : processNeighbor thunk dist x v j with _ | v2
    · rw [hpn] at hE
      cases hE
    · rw [hpn] at hE
      rcases processNeighbor_frame v thunk dist x j v2 hpn with ⟨hc, hd⟩
      rcases ih v2 v1 hE with ⟨hc1, hd1⟩
      exact ⟨by rw [hc1, hc], by rw [hd1, hd]⟩

theorem passNeighbors_inv [LinearOrder α] [Mul α] [Zero α]
    (thunk : VectorForID α) (dist : DistanceFunction α) (x : Id) :
    ∀ (l : List Id) (v v1 : Vamana α), (1 ≤ v.config.R) →
      (∀ j ∈ l, j ≠ x) → DegreeInvariant v.config.R v.edges →
      passNeighbors thunk dist x v l = some v1 →
      DegreeInvariant v.config.R v1.edges := by
  intro l
  induction l with
  | nil =>
    intro v v1 _ _ hInv hE
    simp only [passNeighbors] at hE
    rw [← Option.some.inj hE]
    exact hInv
  | cons j rest ih =>
    intro v v1 hR hall hInv hE
    simp only [passNeighbors] at hE
    rcases hpn : processNeighbor thunk dist x v j with _ | v2
    · rw [hpn] at hE
      cases hE
    · rw [hpn] at hE
      rcases processNeighbor_frame v thunk dist x j v2 hpn with ⟨hc, _⟩
      have hInv2 : DegreeInvariant v2.config.R v2.edges := by
        rw [hc]
        exact processNeighbor_inv v thunk dist x j v2 hR
          (hall j (List.mem_cons_self j rest)) hInv hpn
      have hres := ih v2 v1 (by rw [hc]; exact hR)
        (fun j2 hj2 => hall j2 (List.mem_cons_of_mem j hj2)) hInv2 hE
      rw [hc] at hres
      exact hres

theorem passStep_frame [LinearOrder α] [Mul α] [Zero α] (v : Vamana α)
    (thunk : VectorForID α) (dist : DistanceFunction α) (fuel : Nat) (x : Id)
    (v1 : Vamana α) (hE : passStep thunk dist fuel v x = some v1) :
    v1.config = v.config ∧ v1.data = v.data := by
  simp only [passStep] at hE
  rcases hq : thunk x with _ | q
  · rw [hq] at hE
    cases hE
  · rw [hq] at hE
    dsimp only at hE
    rcases hgs : greedySearch v thunk dist fuel q 1 with _ | res
    · rw [hgs] at hE
      cases hE
    · rw [hgs] at hE
      dsimp only at hE
      rcases hrp : robustPrune v thunk dist x res.2 with _ | v2
      · rw [hrp] at hE
        cases hE
      · rw [hrp] at hE
        rcases robustPrune_shape v thunk dist x res.2 v2 hrp with ⟨hc, hd, _⟩
        rcases passNeighbors_frame thunk dist x (v2.edges.getD x []) v2 v1 hE with ⟨hc1, hd1⟩
        exact ⟨by rw [hc1, hc], by rw [hd1, hd]⟩

theorem passStep_inv [LinearOrder α] [Mul α] [Zero α] (v : Vamana α)
    (thunk : VectorForID α) (dist : DistanceFunction α) (fuel : Nat) (x : Id)
    (v1 : Vamana α) (hR : 1 ≤ v.config.R)
    (hInv : DegreeInvariant v.config.R v.edges)
    (hE : passStep thunk dist fuel v x = some v1) :
    DegreeInvariant v.config.R v1.edges := by
  simp only [passStep] at hE
  rcases hq : thunk x with _ | q
  · rw [hq] at hE
    cases hE
  · rw [hq] at hE
    dsimp only at hE
    rcases hgs : greedySearch v thunk dist fuel q 1 with _ | res
    · rw [hgs] at hE
      cases hE
    · rw [hgs] at hE
      dsimp only at hE
      rcases hrp : robustPrune v thunk dist x res.2 with _ | v2
      · rw [hrp] at hE
        cases hE
      · rw [hrp] at hE
        rcases robustPrune_shape v thunk dist x res.2 v2 hrp with ⟨hc, _, _⟩
        have hInv2 : DegreeInvariant v2.config.R v2.edges := by
          rw [hc]
          exact robustPrune_inv v thunk dist x res.2 v2 hR hInv hrp
        have hall : ∀ j ∈ v2.edges.getD x [], j ≠ x := by
          intro j hj hjx
          rw [hjx] at hj
          rw [hc] at hInv2
          exact (hInv2 x).2 hj
        have hres := passNeighbors_inv thunk dist x (v2.edges.getD x []) v2 v1
          (by rw [hc]; exact hR) hall hInv2 hE
        rw [hc] at hres
        exact hres

theorem passRun_frame [LinearOrder α] [Mul α] [Zero α]
    (thunk : VectorForID α) (dist : DistanceFunction α) (fuel : Nat) :
    ∀ (ids : List Nat) (v v1 : Vamana α),
      passRun thunk dist fuel v ids = some v1 →
      v1.config = v.config ∧ v1.data = v.data := by
  intro ids
  induction ids with
  | nil =>
    intro v v1 hE
    simp only [passRun] at hE
    rw [← Option.some.inj hE]
    exact ⟨rfl, rfl⟩
  | cons x rest ih =>
    intro v v1 hE
    simp only [passRun] at hE
    rcases hps : passStep thunk dist fuel v x with _ | v2
    · rw [hps] at hE
      cases hE
    · rw [hps] at hE
      rcases passStep_frame v thunk dist fuel x v2 hps with ⟨hc, hd⟩
      rcases ih v2 v1 hE with ⟨hc1, hd1⟩
      exact ⟨by rw [hc1, hc], by rw [hd1, hd]⟩

theorem passRun_inv [LinearOrder α] [Mul α] [Zero α]
    (thunk : VectorForID α) (dist : DistanceFunction α) (fuel : Nat) :
    ∀ (ids : List Nat) (v v1 : Vamana α), 1 ≤ v.config.R →
      DegreeInvariant v.config.R v.edges →
      passRun thunk dist fuel v ids = some v1 →
      DegreeInvariant v.config.R v1.edges := by
  intro ids
  induction ids with
  | nil =>
    intro v v1 _ hInv hE
    simp only [passRun] at hE
    rw [← Option.some.inj hE]
    exact hInv
  | cons x rest ih =>
    intro v v1 hR hInv hE
    simp only [passRun] at hE
    rcases hps : passStep thunk dist fuel v x with _ | v2
    · rw [hps] at hE
      cases hE
    · rw [hps] at hE
      rcases passStep_frame v thunk dist fuel x v2 hps with ⟨hc, _⟩
      have hInv2 : DegreeInvariant v2.config.R v2.edges := by
        rw [hc]
        exact passStep_inv v thunk dist fuel x v2 hR hInv hps
      have hres := ih v2 v1 (by rw [hc]; exact hR) hInv2 hE
      rw [hc] at hres
      exact hres

theorem pass_frame [LinearOrder α] [Mul α] [Zero α] (v v1 : Vamana α)
    (thunk : VectorForID α) (dist : DistanceFunction α) (fuel : Nat)
    (rnd : Nat → Nat) (hE : pass thunk dist fuel rnd v = some v1) :
    v1.config = v.config ∧ v1.data = v.data :=
  passRun_frame thunk dist fuel (permutation v.config.VectorsSize rnd) v v1 hE

theorem pass_inv [LinearOrder α] [Mul α] [Zero α] (v v1 : Vamana α)
    (thunk : VectorForID α) (dist : DistanceFunction α) (fuel : Nat)
    (rnd : Nat → Nat) (hR : 1 ≤ v.config.R)
    (hInv : DegreeInvariant v.config.R v.edges)
    (hE : pass thunk dist fuel rnd v = some v1) :
    DegreeInvariant v.config.R v1.edges :=
  passRun_inv thunk dist fuel (permutation v.config.VectorsSize rnd) v v1 hR hInv hE

theorem makeRandomGraph_getD (cfg : Config α) (rnd : Nat → Nat → Nat) (i : Nat)
    (h : i < cfg.VectorsSize) :
    (makeRandomGraph cfg rnd).getD i [] =
      (List.range cfg.R).map
        (fun j =>
          let e := rnd i j % (cfg.VectorsSize - 1)
          if e ≥ i then e + 1 else e) := by
  unfold makeRandomGraph
  rw [List.getD_eq_getElem?_getD, List.getElem?_map, List.getElem?_range h]
  rfl

theorem makeRandomGraph_inv (cfg : Config α) (rnd : Nat → Nat → Nat) :
    DegreeInvariant cfg.R (makeRandomGraph cfg rnd) := by
  intro p
  by_cases hp : p < cfg.VectorsSize
  · rw [makeRandomGraph_getD cfg rnd p hp]
    constructor
    · rw [List.length_map, List.length_range]
    · intro hmem
      rcases List.mem_map.1 hmem with ⟨j, _, heq⟩
      dsimp only at heq
      by_cases hge : rnd p j % (cfg.VectorsSize - 1) ≥ p
      · rw [if_pos hge] at heq
        omega
      · rw [if_neg hge] at heq
        omega
  · have hnone : (makeRandomGraph cfg rnd).getD p [] = [] := by
      unfold makeRandomGraph
      rw [List.getD_eq_getElem?_getD, List.getElem?_eq_none]
      · rfl
      · rw [List.length_map, List.length_range]
        exact Nat.le_of_not_lt hp
    rw [hnone]
    exact ⟨Nat.zero_le _, List.not_mem_nil p⟩

theorem BuildIndex_cases [LinearOrder α] [Mul α] [Zero α] [One α] [Add α]
    [Div α] [NatCast α] (v : Vamana α) (thunk : VectorForID α)
    (dist : DistanceFunction α) (rndG : Nat → Nat → Nat) (rnd1 rnd2 : Nat → Nat)
    (fuel : Nat) (v' : Vamana α)
    (hE : BuildIndex v thunk dist rndG rnd1 rnd2 fuel = some v') :
    ∃ s v3,
      medoid v.config thunk dist = some s ∧
      pass thunk dist fuel rnd1
        { v with edges := makeRandomGraph v.config rndG,
                 data := { v.data with SIndex := s },
                 config := { v.config with Alpha := 1 } } = some v3 ∧
      pass thunk dist fuel rnd2
        { v3 with config := { v3.config with Alpha := v.config.Alpha } } = some v' := by
  simp only [BuildIndex] at hE
  split at hE
  · cases hE
  · rename_i s hm
    split at hE
    · cases hE
    · rename_i v3 hp1
      exact ⟨s, v3, hm, hp1, hE⟩

/-- Claim C1: after `BuildIndex` completes on a corpus of `N ≥ 2` vectors
(with the configured `R ≥ 1`), every node's neighbor list has length at most
`R` and no node appears in its own neighbor list. -/
theorem BuildIndex_degree_bound [LinearOrder α] [Mul α] [Zero α] [One α]
    [Add α] [Div α] [NatCast α] (v : Vamana α) (thunk : VectorForID α)
    (dist : DistanceFunction α) (rndG : Nat → Nat → Nat) (rnd1 rnd2 : Nat → Nat)
    (fuel : Nat) (v' : Vamana α) (hN : 2 ≤ v.config.VectorsSize)
    (hR : 1 ≤ v.config.R)
    (hE : BuildIndex v thunk dist rndG rnd1 rnd2 fuel = some v') :
    ∀ p, (v'.edges.getD p []).length ≤ v'.config.R ∧ p ∉ v'.edges.getD p [] := by
  rcases BuildIndex_cases v thunk dist rndG rnd1 rnd2 fuel v' hE with ⟨s, v3, _, hp1, hp2⟩
  have hInv3 : DegreeInvariant v.config.R v3.edges := pass_inv (({ v with edges := makeRandomGraph v.config rndG, data := { v.data with SIndex := s }, config := { v.config with Alpha := 1 } } : Vamana α)) v3 thunk dist fuel rnd1 hR (makeRandomGraph_inv v.config rndG) hp1
  have hfr3 := pass_frame (({ v with edges := makeRandomGraph v.config rndG, data := { v.data with SIndex := s }, config := { v.config with Alpha := 1 } } : Vamana α)) v3 thunk dist fuel rnd1 hp1
  have hcR3 : v3.config.R = v.config.R := by rw [hfr3.1]
  have hInv4 : DegreeInvariant v3.config.R v3.edges := by
    rw [hcR3]
    exact hInv3
  have hInv2 : DegreeInvariant v3.config.R v'.edges := pass_inv ({ v3 with config := { v3.config with Alpha := v.config.Alpha } }) v' thunk dist fuel rnd2 (show 1 ≤ v3.config.R by rw [hcR3]; exact hR) hInv4 hp2
  have hfr2 := pass_frame ({ v3 with config := { v3.config with Alpha := v.config.Alpha } }) v' thunk dist fuel rnd2 hp2
  have hcR2 : v'.config.R = v3.config.R := by rw [hfr2.1]
  intro p
  rw [hcR2]
  exact hInv2 p

theorem BuildIndex_vW_eval :
    BuildIndex vW thunkW l2Squared rndGZ rndZ rndZ 10 = some vOutW := by
  rfl

/-- Witness for C1 at the concrete two-point corpus `vW`. -/
theorem BuildIndex_degree_bound_witness :
    (vOutW.edges.getD 0 []).length ≤ vOutW.config.R ∧ 0 ∉ vOutW.edges.getD 0 [] :=
  BuildIndex_degree_bound vW thunkW l2Squared rndGZ rndZ rndZ 10 vOutW
    (by decide) (by decide) BuildIndex_vW_eval 0

/-- Claim C4: `BuildIndex` performs exactly two refinement passes over the
random-initialized graph, the first with `Alpha` forced to `1` and the second
with the configured `Alpha`, which is restored in the configuration after the
build. -/
theorem BuildIndex_two_passes [LinearOrder α] [Mul α] [Zero α] [One α]
    [Add α] [Div α] [NatCast α] (v : Vamana α) (thunk : VectorForID α)
    (dist : DistanceFunction α) (rndG : Nat → Nat → Nat) (rnd1 rnd2 : Nat → Nat)
    (fuel : Nat) (v' : Vamana α)
    (hE : BuildIndex v thunk dist rndG rnd1 rnd2 fuel = some v') :
    v'.config.Alpha = v.config.Alpha ∧
    ∃ s v3,
      medoid v.config thunk dist = some s ∧
      pass thunk dist fuel rnd1
        { v with edges := makeRandomGraph v.config rndG,
                 data := { v.data with SIndex := s },
                 config := { v.config with Alpha := 1 } } = some v3 ∧
      pass thunk dist fuel rnd2
        { v3 with config := { v3.config with Alpha := v.config.Alpha } } = some v' := by
  rcases BuildIndex_cases v thunk dist rndG rnd1 rnd2 fuel v' hE with ⟨s, v3, hm, hp1, hp2⟩
  have hfr' := pass_frame _ v' thunk dist fuel rnd2 hp2
  exact ⟨by rw [hfr'.1], s, v3, hm, hp1, hp2⟩

/-- Witness for C4 at the concrete two-point corpus `vW`. -/
theorem BuildIndex_two_passes_witness : vOutW.config.Alpha = vW.config.Alpha :=
  (BuildIndex_two_passes vW thunkW l2Squared rndGZ rndZ rndZ 10 vOutW
    BuildIndex_vW_eval).1

theorem robustPrune_vC3_eval :
    robustPrune vC3 thunkC3 l2Squared 0 [1, 2] = some vOutC3 := by
  rfl

/-- Claim C2 (counterexample): with `N = 2`, `R = 2` and a random stream that
always returns `0`, the random initialization gives node `0` the neighbor
list `[1, 1]`, which contains a duplicate — so the random initialization does
not produce `R` distinct neighbors. -/
theorem makeRandomGraph_duplicate_counterexample :
    (makeRandomGraph cfgR2 rndGZ).getD 0 [] = [1, 1] ∧
    ¬ ((makeRandomGraph cfgR2 rndGZ).getD 0 []).Nodup := by
  decide

/-- Claim C2 (amended): the random initialization gives each id a list of
exactly `R` neighbors drawn from `[0, N) \ {self}` (repetitions allowed), and
every neighbor list assigned by `robustPrune` is duplicate-free. -/
theorem makeRandomGraph_range_and_prune_nodup :
    (∀ (α : Type) (cfg : Config α) (rnd : Nat → Nat → Nat) (i : Nat),
      2 ≤ cfg.VectorsSize → i < cfg.VectorsSize →
      ((makeRandomGraph cfg rnd).getD i []).length = cfg.R ∧
        ∀ e : Nat, e ∈ (makeRandomGraph cfg rnd).getD i [] →
          e < cfg.VectorsSize ∧ e ≠ i) ∧
    (∀ (α : Type) [LinearOrder α] [Mul α] [Zero α]
      (v : Vamana α) (thunk : VectorForID α) (dist : DistanceFunction α)
      (p : Id) (visited : List Id) (v' : Vamana α), 1 ≤ v.config.R →
      p < v.edges.length →
      robustPrune v thunk dist p visited = some v' →
      (v'.edges.getD p []).Nodup) := by
  constructor
  · intro α cfg rnd i hN hi
    rw [makeRandomGraph_getD cfg rnd i hi]
    constructor
    · rw [List.length_map, List.length_range]
    · intro e hmem
      rcases List.mem_map.1 hmem with ⟨j, _, heq⟩
      dsimp only at heq
      have hmod : rnd i j % (cfg.VectorsSize - 1) < cfg.VectorsSize - 1 :=
        Nat.mod_lt _ (by omega)
      by_cases hge : rnd i j % (cfg.VectorsSize - 1) ≥ i
      · rw [if_pos hge] at heq
        rw [← heq]
        omega
      · rw [if_neg hge] at heq
        rw [← heq]
        omega
  · intro α _ _ _ v thunk dist p visited v' hR hp hE
    rcases robustPrune_out v thunk dist p visited v' hR hE with
      ⟨_, _, out, hedges, _, hnd, _⟩
    rw [hedges, getD_set_self v.edges p out [] hp]
    exact hnd

/-- Witness for the amended C2: the random rows of the concrete `N = 2`,
`R = 2` graph stay in range, and the concrete prune of `vC3` yields a
duplicate-free list. -/
theorem makeRandomGraph_range_and_prune_nodup_witness :
    (((makeRandomGraph cfgR2 rndGZ).getD 0 []).length = cfgR2.R ∧
      ∀ e : Nat, e ∈ (makeRandomGraph cfgR2 rndGZ).getD 0 [] →
        e < cfgR2.VectorsSize ∧ e ≠ 0) ∧
    (vOutC3.edges.getD 0 []).Nodup :=
  ⟨makeRandomGraph_range_and_prune_nodup.1 ℤ cfgR2 rndGZ 0 (by decide) (by decide),
   makeRandomGraph_range_and_prune_nodup.2 ℤ vC3 thunkC3 l2Squared 0 [1, 2] vOutC3
     (by decide) (by decide) robustPrune_vC3_eval⟩

/-- Claim C5 (code bug): `medoid` allocates the mean with length
`VectorsSize` instead of `Dimensions`, so on a corpus with
`Dimensions = 3 > VectorsSize = 2` the accumulation loop indexes out of
range (a Go panic, embedded as `none`), while the medoid described by the
spec — mean of length `Dimensions` — exists and is id `0`. -/
theorem medoid_mean_length_bug :
    medoid cfgD3 thunkD3 l2Squared = none ∧
    medoidSpec cfgD3 thunkD3 l2Squared = some 0 := by
  decide

/-- Claim C7 (counterexample): `SearchByVector` is called with a query of
length `3` on an index configured with `Dimensions = 2` and it does not fail:
it returns one id, so no `DimensionMismatch` error is raised. -/
theorem SearchByVector_no_dimension_check :
    ¬ (([3, 4, 5] : Vec ℤ).length = vMem.config.Dimensions) ∧
    SearchByVector vMem thunkMem l2Squared 10 [3, 4, 5] 1 = some [1] := by
  decide

/-- Claim C7 (amended): `SearchByVector` performs no validation whatsoever —
it forwards every query of every length directly to `greedySearchQuery`, and
it has no error channel for `DimensionMismatch` or `Empty`. -/
theorem SearchByVector_forwards [LinearOrder α] (v : Vamana α)
    (thunk : VectorForID α) (dist : DistanceFunction α) (fuel : Nat)
    (query : Vec α) (k : Nat) :
    SearchByVector v thunk dist fuel query k =
      greedySearchQuery v thunk dist fuel query k :=
  rfl

/-- Claim C8: opening the directory written by `ToDisk` yields an index whose
edge graph, entry point, PQ codes and hot-cache contents are identical to
those of the saved index (the gob round-trip is lossless on these values). -/
theorem ToDisk_roundtrip (v : Vamana α) :
    (VamanaFromDisk (ToDisk v)).edges = v.edges ∧
    (VamanaFromDisk (ToDisk v)).data.SIndex = v.data.SIndex ∧
    (VamanaFromDisk (ToDisk v)).data.EncondedVectors = v.data.EncondedVectors ∧
    (VamanaFromDisk (ToDisk v)).data.CachedEdges = v.data.CachedEdges :=
  ⟨rfl, rfl, rfl, rfl⟩

/-- Claim C9: `SetCacheSize` changes only the configuration field `C` and
`SetBeamSize` changes only `BeamSize`; every other field of the index (the
remaining configuration fields, the data payload, the cached bitmap, the
edges, the graph file, the PQ and the dispatch fields) is unchanged. -/
theorem setters_frame (v : Vamana α) (c b : Nat) :
    (SetCacheSize v c).config.C = c ∧
    (SetCacheSize v c).config.R = v.config.R ∧
    (SetCacheSize v c).config.L = v.config.L ∧
    (SetCacheSize v c).config.Alpha = v.config.Alpha ∧
    (SetCacheSize v c).config.VectorsSize = v.config.VectorsSize ∧
    (SetCacheSize v c).config.Dimensions = v.config.Dimensions ∧
    (SetCacheSize v c).config.BeamSize = v.config.BeamSize ∧
    (SetCacheSize v c).config.ClustersSize = v.config.ClustersSize ∧
    (SetCacheSize v c).config.ClusterOverlapping = v.config.ClusterOverlapping ∧
    (SetCacheSize v c).data = v.data ∧
    (SetCacheSize v c).cachedBitMap = v.cachedBitMap ∧
    (SetCacheSize v c).edges = v.edges ∧
    (SetCacheSize v c).graphFile = v.graphFile ∧
    (SetCacheSize v c).pq = v.pq ∧
    (SetCacheSize v c).outNeighborsDisk = v.outNeighborsDisk ∧
    (SetCacheSize v c).addRangePQFlag = v.addRangePQFlag ∧
    (SetCacheSize v c).beamSearchHolder = v.beamSearchHolder ∧
    (SetBeamSize v b).config.BeamSize = b ∧
    (SetBeamSize v b).config.R = v.config.R ∧
    (SetBeamSize v b).config.L = v.config.L ∧
    (SetBeamSize v b).config.Alpha = v.config.Alpha ∧
    (SetBeamSize v b).config.VectorsSize = v.config.VectorsSize ∧
    (SetBeamSize v b).config.Dimensions = v.config.Dimensions ∧
    (SetBeamSize v b).config.C = v.config.C ∧
    (SetBeamSize v b).config.ClustersSize = v.config.ClustersSize ∧
    (SetBeamSize v b).config.ClusterOverlapping = v.config.ClusterOverlapping ∧
    (SetBeamSize v b).data = v.data ∧
    (SetBeamSize v b).cachedBitMap = v.cachedBitMap ∧
    (SetBeamSize v b).edges = v.edges ∧
    (SetBeamSize v b).graphFile = v.graphFile ∧
    (SetBeamSize v b).pq = v.pq ∧
    (SetBeamSize v b).outNeighborsDisk = v.outNeighborsDisk ∧
    (SetBeamSize v b).addRangePQFlag = v.addRangePQFlag ∧
    (SetBeamSize v b).beamSearchHolder = v.beamSearchHolder :=
  ⟨rfl, rfl, rfl, rfl, rfl, rfl, rfl, rfl, rfl, rfl, rfl, rfl, rfl, rfl, rfl,
   rfl, rfl, rfl, rfl, rfl, rfl, rfl, rfl, rfl, rfl, rfl, rfl, rfl, rfl, rfl,
   rfl, rfl, rfl, rfl⟩

/-- Claim C10: the index returned by `VamanaFromDisk` has its configured
dimension set to the constant `128`, whatever dimension value the persisted
configuration stores. -/
theorem VamanaFromDisk_dimensions_constant (p : Persisted α) :
    (VamanaFromDisk p).config.Dimensions = 128 :=
  rfl

theorem closestScan_exact [Zero α] [DecidableEq α] (thunk : VectorForID α)
    (dist : DistanceFunction α) (qP : Vec α) :
    ∀ (items items1 : List (IndexAndDistance α)),
      DistCacheOk thunk dist qP items →
      closestScan thunk dist qP items = some items1 →
      DistCacheExact thunk dist qP items1 := by
  intro items
  induction items with
  | nil =>
    intro items1 _ h e1 he1
    simp only [closestScan] at h
    rw [← Option.some.inj h] at he1
    exact absurd he1 (List.not_mem_nil e1)
  | cons e rest ih =>
    intro items1 hOk h e1 he1
    simp only [closestScan] at h
    rcases hr : closestScan thunk dist qP rest with _ | rest1
    · rw [hr] at h
      cases h
    · rw [hr] at h
      dsimp only at h
      have hOkRest : DistCacheOk thunk dist qP rest :=
        fun e2 he2 => hOk e2 (List.mem_cons_of_mem e he2)
      by_cases hz : e.distance = 0
      · rw [if_pos hz] at h
        rcases hq : thunk e.index with _ | qi
        · rw [hq] at h
          cases h
        · rw [hq] at h
          dsimp only at h
          rw [← Option.some.inj h] at he1
          rcases List.mem_cons.1 he1 with h1 | h1
          · rw [h1]
            exact ⟨qi, hq, rfl⟩
          · exact ih rest1 hOkRest hr e1 h1
      · rw [if_neg hz] at h
        rw [← Option.some.inj h] at he1
        rcases List.mem_cons.1 he1 with h1 | h1
        · rcases hOk e (List.mem_cons_self e rest) with h2 | h2
          · exact absurd h2 hz
          · rw [h1]
            exact h2
        · exact ih rest1 hOkRest hr e1 h1

theorem removeDominated_survivors [LinearOrder α] [Mul α]
    (thunk : VectorForID α) (dist : DistanceFunction α) (alpha : α)
    (qPMin : Vec α) :
    ∀ (items items2 : List (IndexAndDistance α)),
      removeDominated thunk dist alpha qPMin items = some items2 →
      ∀ e ∈ items2, ∀ qX, thunk e.index = some qX →
        ¬ (alpha * dist qPMin qX ≤ e.distance) := by
  intro items
  induction items with
  | nil =>
    intro items2 h e he
    simp only [removeDominated] at h
    rw [← Option.some.inj h] at he
    exact absurd he (List.not_mem_nil e)
  | cons x rest ih =>
    intro items2 h e he qX hqX
    simp only [removeDominated] at h
    rcases hq : thunk x.index with _ | qX0
    · rw [hq] at h
      cases h
    · rw [hq] at h
      dsimp only at h
      rcases hr : removeDominated thunk dist alpha qPMin rest with _ | rest1
      · rw [hr] at h
        cases h
      · rw [hr] at h
        dsimp only at h
        by_cases hc : alpha * dist qPMin qX0 ≤ x.distance
        · rw [if_pos hc] at h
          rw [← Option.some.inj h] at he
          exact ih rest1 hr e he qX hqX
        · rw [if_neg hc] at h
          rw [← Option.some.inj h] at he
          rcases List.mem_cons.1 he with h1 | h1
          · rw [h1] at hqX ⊢
            have hqq : qX = qX0 := (Option.some.inj (hq.symm.trans hqX)).symm
            rw [hqq]
            exact hc
          · exact ih rest1 hr e h1 qX hqX

theorem rp_loop_diverse [LinearOrder α] [Mul α] [Zero α] (thunk : VectorForID α)
    (dist : DistanceFunction α) (alpha : α) (R : Nat) (qP : Vec α) :
    ∀ (fuel : Nat) (items : List (IndexAndDistance α)) (out res : List Id),
      robustPruneLoop thunk dist alpha R qP fuel items out = some res →
      DistCacheOk thunk dist qP items →
      DominatesSet thunk dist alpha qP out items →
      Diverse thunk dist alpha qP out →
      Diverse thunk dist alpha qP res := by
  intro fuel
  induction fuel with
  | zero =>
    intro items out res hE _ _ hDiv
    simp only [robustPruneLoop] at hE
    rw [← Option.some.inj hE]
    exact hDiv
  | succ f ih =>
    intro items out res hE hOk hDom hDiv
    simp only [robustPruneLoop] at hE
    by_cases hemp : items.isEmpty
    · rw [if_pos hemp] at hE
      rw [← Option.some.inj hE]
      exact hDiv
    · rw [if_neg hemp] at hE
      rcases hcs : closestScan thunk dist qP items with _ | items1
      · rw [hcs] at hE
        cases hE
      · rw [hcs] at hE
        dsimp only at hE
        rcases hmin : minItem items1 with _ | pMin
        · rw [hmin] at hE
          cases hE
        · rw [hmin] at hE
          dsimp only at hE
          rcases hq : thunk pMin.index with _ | qPMin
          · rw [hq] at hE
            cases hE
          · rw [hq] at hE
            dsimp only at hE
            have hExact : DistCacheExact thunk dist qP items1 :=
              closestScan_exact thunk dist qP items items1 hOk hcs
            have hDom1 : DominatesSet thunk dist alpha qP out items1 := by
              intro a ha e1 he1 va ve hva hve
              rcases closestScan_indexes thunk dist qP items items1 hcs e1 he1 with ⟨e, he, hee⟩
              exact hDom a ha e he va ve hva (by rw [← hee]; exact hve)
            have hpm1 : pMin ∈ items1 := minItem_mem items1 pMin hmin
            by_cases hc : out.contains pMin.index = true
            · rw [if_pos hc] at hE
              by_cases hR : out.length = R
              · rw [if_pos hR] at hE
                rw [← Option.some.inj hE]
                exact hDiv
              · rw [if_neg hR] at hE
                rcases hrd : removeDominated thunk dist alpha qPMin items1 with _ | items2
                · rw [hrd] at hE
                  cases hE
                · rw [hrd] at hE
                  have hOk2 : DistCacheOk thunk dist qP items2 := by
                    intro e he
                    exact Or.inr (hExact e
                      (removeDominated_subset thunk dist alpha qPMin items1 items2 hrd e he))
                  have hDom2 : DominatesSet thunk dist alpha qP out items2 := by
                    intro a ha e he va ve hva hve
                    exact hDom1 a ha e
                      (removeDominated_subset thunk dist alpha qPMin items1 items2 hrd e he)
                      va ve hva hve
                  exact ih items2 out res hE hOk2 hDom2 hDiv
            · rw [if_neg hc] at hE
              have hDiv1 : Diverse thunk dist alpha qP (out ++ [pMin.index]) := by
                intro i j hij hj vu vw hvu hvw
                rw [List.length_append, List.length_singleton] at hj
                by_cases hjlen : j < out.length
                · rw [getD_append_lt out [pMin.index] j 0 hjlen] at hvw
                  rw [getD_append_lt out [pMin.index] i 0 (Nat.lt_trans hij hjlen)] at hvu
                  exact hDiv i j hij hjlen vu vw hvu hvw
                · have hjeq : j = out.length := by omega
                  rw [hjeq, getD_concat_len out pMin.index 0] at hvw
                  have hilen : i < out.length := by omega
                  rw [getD_append_lt out [pMin.index] i 0 hilen] at hvu
                  exact hDom1 (out.getD i 0) (mem_getD out i 0 hilen) pMin hpm1
                    vu vw hvu hvw
              by_cases hR : (out ++ [pMin.index]).length = R
              · rw [if_pos hR] at hE
                rw [← Option.some.inj hE]
                exact hDiv1
              · rw [if_neg hR] at hE
                rcases hrd : removeDominated thunk dist alpha qPMin items1 with _ | items2
                · rw [hrd] at hE
                  cases hE
                · rw [hrd] at hE
                  have hOk2 : DistCacheOk thunk dist qP items2 := by
                    intro e he
                    exact Or.inr (hExact e
                      (removeDominated_subset thunk dist alpha qPMin items1 items2 hrd e he))
                  have hDom2 : DominatesSet thunk dist alpha qP (out ++ [pMin.index]) items2 := by
                    intro a ha e he va ve hva hve
                    have he1 : e ∈ items1 :=
                      removeDominated_subset thunk dist alpha qPMin items1 items2 hrd e he
                    rcases List.mem_append.1 ha with h1 | h1
                    · exact hDom1 a h1 e he1 va ve hva hve
                    · have hapm : a = pMin.index := List.mem_singleton.1 h1
                      have hva2 : va = qPMin := by
                        rw [hapm] at hva
                        exact (Option.some.inj (hq.symm.trans hva)).symm
                      have hsurv := removeDominated_survivors thunk dist alpha qPMin
                        items1 items2 hrd e he ve hve
                      rcases hExact e he1 with ⟨w, hw, hd⟩
                      have hwve : w = ve := Option.some.inj (hw.symm.trans hve)
                      rw [hva2]
                      rw [hwve] at hd
                      rw [hd] at hsurv
                      exact lt_of_not_le hsurv
                  exact ih items2 (out ++ [pMin.index]) res hE hOk2 hDom2 hDiv1

theorem set2AddRange_cons [Zero α] (items : List (IndexAndDistance α))
    (i : Id) (rest : List Id) :
    set2AddRange items (i :: rest) =
      set2AddRange
        (if items.any (fun e => e.index == i) then items else items ++ [⟨i, 0⟩])
        rest :=
  rfl

theorem set2AddRange_dist0 [Zero α] :
    ∀ (ids : List Id) (items : List (IndexAndDistance α)),
      (∀ e ∈ items, e.distance = 0) →
      ∀ e ∈ set2AddRange items ids, e.distance = 0 := by
  intro ids
  induction ids with
  | nil =>
    intro items h e he
    exact h e he
  | cons i rest ih =>
    intro items h e he
    rw [set2AddRange_cons] at he
    by_cases hc : items.any (fun e2 => e2.index == i)
    · rw [if_pos hc] at he
      exact ih items h e he
    · rw [if_neg hc] at he
      refine ih (items ++ [⟨i, 0⟩]) ?_ e he
      intro e2 he2
      rcases List.mem_append.1 he2 with h1 | h1
      · exact h e2 h1
      · rw [List.mem_singleton.1 h1]

theorem pruneWorkSet_dist0 [Zero α] (v : Vamana α) (visited : List Id) (p : Id) :
    ∀ e ∈ (pruneWorkSet v visited p : List (IndexAndDistance α)), e.distance = 0 := by
  intro e he
  unfold pruneWorkSet set2Remove at he
  refine set2AddRange_dist0 (v.edges.getD p []) (set2AddRange [] visited) ?_ e
    (List.mem_filter.1 he).1
  intro e2 he2
  exact set2AddRange_dist0 visited [] (fun e3 he3 => absurd he3 (List.not_mem_nil e3)) e2 he2

theorem robustPrune_diverse [LinearOrder α] [Mul α] [Zero α] (v : Vamana α)
    (thunk : VectorForID α) (dist : DistanceFunction α) (p : Id)
    (visited : List Id) (v' : Vamana α)
    (hE : robustPrune v thunk dist p visited = some v')
    (hp : p < v.edges.length) :
    Diverse thunk dist v.config.Alpha ((thunk p).getD []) (v'.edges.getD p []) := by
  rcases robustPrune_shape v thunk dist p visited v' hE with ⟨_, _, out, hedges, hloop⟩
  have hres := rp_loop_diverse thunk dist v.config.Alpha v.config.R
    ((thunk p).getD []) (pruneWorkSet v visited p).length (pruneWorkSet v visited p)
    [] out hloop
    (fun e he => Or.inl (pruneWorkSet_dist0 v visited p e he))
    (fun a ha => absurd ha (List.not_mem_nil a))
    (fun i j _ hj => absurd hj (by simp))
  rw [hedges, getD_set_self v.edges p out [] hp]
  exact hres

/-- Claim C3: `RobustPrune` enforces the alpha-diversity condition — for any
node `p` and any two surviving neighbors `u, w` of `p` with `u` selected
before `w`, `Alpha · d(u, w) > d(p, w)` (for a symmetric distance function,
as the spec requires of the distance collaborator). -/
theorem robustPrune_diversity [LinearOrder α] [Mul α] [Zero α] (v : Vamana α)
    (thunk : VectorForID α) (dist : DistanceFunction α) (p : Id)
    (visited : List Id) (v' : Vamana α)
    (hsym : ∀ a b, dist a b = dist b a)
    (hE : robustPrune v thunk dist p visited = some v')
    (hp : p < v.edges.length) (i j : Nat) (hij : i < j)
    (hj : j < (v'.edges.getD p []).length) (vu vw vp : Vec α)
    (hvu : thunk ((v'.edges.getD p []).getD i 0) = some vu)
    (hvw : thunk ((v'.edges.getD p []).getD j 0) = some vw)
    (hvp : thunk p = some vp) :
    v.config.Alpha * dist vu vw > dist vp vw := by
  have h := robustPrune_diverse v thunk dist p visited v' hE hp i j hij hj vu vw hvu hvw
  rw [hvp, Option.getD_some] at h
  rw [hsym vp vw]
  exact h

/-- The L2-squared kernel is symmetric. -/
theorem l2Squared_comm [CommRing α] :
    ∀ (a b : Vec α), l2Squared a b = l2Squared b a := by
  intro a
  induction a with
  | nil =>
    intro b
    cases b <;> rfl
  | cons x rest ih =>
    intro b
    cases b with
    | nil => rfl
    | cons y brest =>
      simp only [l2Squared, List.zipWith_cons_cons, List.sum_cons]
      have h1 : (x - y) * (x - y) = (y - x) * (y - x) := by ring
      have h2 := ih brest
      simp only [l2Squared] at h2
      rw [h1, h2]

/-- Witness for C3 at the concrete three-point corpus `vC3`: pruning node `0`
selects `[1, 2]`, and `1 · d([4], [-5]) = 81 > 25 = d([0], [-5])`. -/
theorem robustPrune_diversity_witness :
    vC3.config.Alpha * l2Squared [4] [-5] > l2Squared [0] ([-5] : Vec ℤ) :=
  robustPrune_diversity vC3 thunkC3 l2Squared 0 [1, 2] vOutC3 l2Squared_comm
    robustPrune_vC3_eval (by decide) 0 1 (by decide) (by decide) [4] [-5] [0]
    (by decide) (by decide) (by decide)

theorem seq_eq_beam_single [LinearOrder α] (v : Vamana α)
    (thunk : VectorForID α) (dist : DistanceFunction α) (s : CandSet α)
    (hB : 1 ≤ v.config.BeamSize)
    (hlen : (s.items.filter (fun e => !e.visited)).length ≤ 1) :
    secuentialBeamSearch v thunk dist s = beamSearchStep v thunk dist s := by
  rcases hfl : s.items.filter (fun e => !e.visited) with _ | ⟨e, rest⟩
  · have hfind : s.items.find? (fun e => !e.visited) = none :=
      find?_of_filter_nil _ _ hfl
    simp only [secuentialBeamSearch, beamSearchStep, CandSet.Top, CandSet.TopN,
      hfind, hfl, List.take_nil, List.map_nil, List.zip_nil_right,
      List.foldlM_nil, List.foldl_nil]
    rfl
  · have hrest : rest = [] := by
      rw [hfl] at hlen
      simp only [List.length_cons] at hlen
      exact List.eq_nil_of_length_eq_zero (by omega)
    subst hrest
    have hfind : s.items.find? (fun e => !e.visited) = some e :=
      find?_of_filter_singleton _ _ e hfl
    have htake : ([e] : List (SetRecord α)).take v.config.BeamSize = [e] :=
      List.take_of_length_le (by simp only [List.length_singleton]; exact hB)
    simp only [secuentialBeamSearch, beamSearchStep, CandSet.Top, CandSet.TopN,
      hfind, hfl, htake, List.map_cons, List.map_nil, List.zip_cons_cons,
      List.zip_nil_right, List.foldlM_cons, List.foldlM_nil, List.foldl_cons,
      List.foldl_nil]
    rcases outNeighbors v e.id with ⟨nbrs, _ | vec⟩
    · cases addRangeDispatch v thunk dist
        ({ s with items := markVisited s.items e.id }) nbrs <;> rfl
    · cases addRangeDispatch v thunk dist
        (({ s with items := markVisited s.items e.id } : CandSet α).ReSort dist e.id vec) nbrs <;> rfl

theorem queryLoop_beam_eq [LinearOrder α] (v : Vamana α)
    (thunk : VectorForID α) (dist : DistanceFunction α) :
    ∀ (fuel : Nat) (s : CandSet α),
      querySearchLoop v thunk dist fuel s BeamStrategy.beam =
        (allBeamLoop v thunk dist fuel s).map (fun s2 => (s2, BeamStrategy.beam)) := by
  intro fuel
  induction fuel with
  | zero =>
    intro s
    rfl
  | succ f ih =>
    intro s
    simp only [querySearchLoop, allBeamLoop]
    by_cases hnv : s.NotVisited
    · rw [if_pos hnv, if_pos hnv]
      simp only [beamStepHolder]
      rcases hbs : beamSearchStep v thunk dist s with _ | s1
      · rfl
      · exact ih s1
    · rw [if_neg hnv, if_neg hnv]
      rfl

theorem queryLoop_first [LinearOrder α] (v : Vamana α)
    (thunk : VectorForID α) (dist : DistanceFunction α)
    (hB : 1 ≤ v.config.BeamSize) :
    ∀ (fuel : Nat) (s : CandSet α),
      (s.items.filter (fun e => !e.visited)).length ≤ 1 →
      (querySearchLoop v thunk dist fuel s BeamStrategy.initialStep).map Prod.fst =
        allBeamLoop v thunk dist fuel s := by
  intro fuel
  cases fuel with
  | zero =>
    intro s _
    rfl
  | succ f =>
    intro s hlen
    simp only [querySearchLoop, allBeamLoop]
    by_cases hnv : s.NotVisited
    · rw [if_pos hnv, if_pos hnv]
      simp only [beamStepHolder]
      rw [seq_eq_beam_single v thunk dist s hB hlen]
      rcases hbs : beamSearchStep v thunk dist s with _ | s1
      · rfl
      · simp only [queryLoop_beam_eq v thunk dist f s1, Option.map_map]
        cases allBeamLoop v thunk dist f s1 <;> rfl
    · rw [if_neg hnv, if_neg hnv]
      rfl

theorem seeded_len [LinearOrder α] (L : Nat) (x : Vec α)
    (dist : DistanceFunction α) (pq : Vec α → List Nat → α)
    (codes : List (List Nat)) (cache : List (Id × VectorWithNeighbors α))
    (bits : List Bool) (id0 : Id) :
    ((((CandSet.reCenter L x : CandSet α).AddPQVector dist pq codes cache bits
        id0).items.filter (fun e => !e.visited)).length) ≤ 1 := by
  simp only [CandSet.AddPQVector, CandSet.reCenter]
  rcases lookupCached cache id0 with _ | c
  · simp only [CandSet.insertRec, List.any_nil, Bool.false_eq_true, if_false,
      insertOrdered]
    calc (((([⟨id0, pq x (codes.getD id0 []), false, false⟩] : List (SetRecord α)).take L).filter
        (fun e => !e.visited)).length)
        ≤ (([⟨id0, pq x (codes.getD id0 []), false, false⟩] : List (SetRecord α)).take L).length :=
          List.length_filter_le _ _
      _ ≤ 1 := by
          rw [List.length_take]
          exact Nat.le_trans (Nat.min_le_right _ _) (by simp)
  · simp only [CandSet.insertRec, List.any_nil, Bool.false_eq_true, if_false,
      insertOrdered]
    calc (((([⟨id0, dist c.Vector x, false, true⟩] : List (SetRecord α)).take L).filter
        (fun e => !e.visited)).length)
        ≤ (([⟨id0, dist c.Vector x, false, true⟩] : List (SetRecord α)).take L).length :=
          List.length_filter_le _ _
      _ ≤ 1 := by
          rw [List.length_take]
          exact Nat.le_trans (Nat.min_le_right _ _) (by simp)

/-- Claim C6: for a disk-resident index with `BeamSize > 1` (the state
`VamanaFromDisk` and `SwitchGraphToDisk` produce: holder `initBeamSearch`),
the query returns exactly what a loop that performs a beam step — `TopN`,
parallel row fetch, per-candidate `ReSort`, `AddRangePQ` in fetch order — at
every iteration returns: the initial sequential step is extensionally a beam
step because the seeded set holds a single unvisited candidate. -/
theorem greedySearchQuery_all_beam [LinearOrder α] (v : Vamana α)
    (thunk : VectorForID α) (dist : DistanceFunction α) (fuel : Nat)
    (x : Vec α) (k : Nat) (hDisk : v.data.OnDisk = true)
    (hB : 1 < v.config.BeamSize)
    (hH : v.beamSearchHolder = BeamStrategy.initialStep) :
    greedySearchQuery v thunk dist fuel x k =
      greedySearchQueryAllBeam v thunk dist fuel x k := by
  unfold greedySearchQuery greedySearchQueryAllBeam
  rw [hDisk, hH]
  simp only [if_true]
  have hmap := queryLoop_first v thunk dist (Nat.le_of_lt hB) fuel
    ((CandSet.reCenter v.config.L x).AddPQVector dist v.pq v.data.EncondedVectors
      v.data.CachedEdges v.cachedBitMap v.data.SIndex)
    (seeded_len v.config.L x dist v.pq v.data.EncondedVectors v.data.CachedEdges
      v.cachedBitMap v.data.SIndex)
  rcases hq : querySearchLoop v thunk dist fuel
      ((CandSet.reCenter v.config.L x).AddPQVector dist v.pq v.data.EncondedVectors
        v.data.CachedEdges v.cachedBitMap v.data.SIndex)
      BeamStrategy.initialStep with _ | pr
  · rw [hq] at hmap
    rw [← hmap]
    rfl
  · rw [hq] at hmap
    rw [← hmap]
    rcases pr with ⟨sF, h⟩
    rfl

/-- Witness for C6 at the concrete fully-cached disk index `vBeam`. -/
theorem greedySearchQuery_all_beam_witness :
    greedySearchQuery vBeam thunkBeam l2Squared 5 [0] 2 =
      greedySearchQueryAllBeam vBeam thunkBeam l2Squared 5 [0] 2 :=
  greedySearchQuery_all_beam vBeam thunkBeam l2Squared 5 [0] 2 rfl (by decide) rfl

end DiskAnn

